import Mathlib

/-!
Verification of the fs_scanner repository (files fs_compare.py and fs_scanner.py).

The embedding models the manifest loader and diff engine of fs_compare.py and the
scan loop, checksum dispatch table and CLI choice list of fs_scanner.py.  JSON
scalar values are modelled by `JVal`; Python numbers (ints and the finite floats
appearing as sizes and timestamps) are modelled exactly as rationals, Python
equality (which identifies booleans with 0/1 and ints with equal floats) by
`pyNorm`-equality, and Python's order comparison (defined on numbers and on
strings, a TypeError elsewhere) by `pyLt`.  Python dicts are modelled as
association lists with dict semantics: insertion keeps the position and the
original key of an existing equal key (`dinsert`), lookup finds the unique
matching key (`dget`), iteration order is list order.  The external library
calls json.loads, zlib.adler32, hashlib and the filesystem are abstracted at
their observation points: a manifest line is represented by its parse outcome
(`Line`), a scanned file by the outcome of its stat and checksum calls
(`FileEvent`).
-/

namespace FsScanner

/-- A JSON scalar value as produced by json.loads for the fields of a manifest
record: null, a boolean, a number (int or finite float, both exact rationals),
or a string. -/
inductive JVal where
  | null : JVal
  | bool (b : Bool) : JVal
  | num (q : ℚ) : JVal
  | str (s : String) : JVal
deriving DecidableEq, Repr

/-- Normalisation underlying Python equality: True == 1 and False == 0, and an
int equals the float of the same value (both are the same rational here).  Two
values are Python-equal exactly when their normal forms coincide. -/
def pyNorm : JVal → JVal
  | .bool b => .num (if b then 1 else 0)
  | v => v

/-- Python's < on JSON scalars: defined between numbers (booleans count as 0/1)
and between strings (lexicographic); any other combination raises TypeError,
modelled as none. -/
def pyLt (a b : JVal) : Option Bool :=
  match pyNorm a, pyNorm b with
  | .num x, .num y => some (decide (x < y))
  | .str x, .str y => some (decide (x < y))
  | _, _ => none

/-- A parsed JSON object (a Python dict with string keys), e.g. one manifest
record: a field list. -/
abbrev Obj := List (String × JVal)

/-- Field access on a parsed JSON object.  json.loads keeps the last of
duplicate keys, hence the last-wins fold. -/
def Obj.get (o : Obj) (k : String) : Option JVal :=
  o.foldl (fun acc p => if p.1 = k then some p.2 else acc) none

/-- One line of a manifest file, represented by what json.loads would do with
it: blank after strip (skipped by the loader), failing to parse (json.loads
raises), parsing to a non-object (indexing it with "path" raises TypeError),
or parsing to an object. -/
inductive Line where
  | blank : Line
  | badJson : Line
  | nonObj (v : JVal) : Line
  | obj (o : Obj) : Line
deriving DecidableEq, Repr

/-- The unhandled exceptions that abort a manifest load in fs_compare.py:
json.loads raising on a malformed line, indexing a non-dict parse result, and
a parsed object without a "path" key. -/
inductive LoadError where
  | jsonDecodeError : LoadError
  | typeErrorOnIndex : LoadError
  | keyErrorPath : LoadError
deriving DecidableEq, Repr

/-- A loaded manifest (this_model / other_model in fs_compare.py): a Python
dict from the record's "path" value to the record, in insertion order. -/
abbrev Model := List (JVal × Obj)

/-- Python dict assignment d[k] = v: if a Python-equal key exists, its position
and original key object are kept and only the value replaced; otherwise the
pair is appended. -/
def dinsert (k : JVal) (v : Obj) : Model → Model
  | [] => [(k, v)]
  | (k0, v0) :: rest =>
      if pyNorm k0 = pyNorm k then (k0, v) :: rest
      else (k0, v0) :: dinsert k v rest

/-- Python dict lookup d[k] / membership test, up to Python key equality. -/
def dget (m : Model) (k : JVal) : Option Obj :=
  match m with
  | [] => none
  | (k0, v0) :: rest => if pyNorm k0 = pyNorm k then some v0 else dget rest k

/-- One iteration of the manifest-loading loop of fs_compare.py (lines 61-66 and
81-87): strip/skip blank lines, json.loads the line, and store the record under
its "path" field. -/
def loadStep (m : Model) (l : Line) : Except LoadError Model :=
  match l with
  | .blank => .ok m
  | .badJson => .error .jsonDecodeError
  | .nonObj _ => .error .typeErrorOnIndex
  | .obj o =>
      match Obj.get o "path" with
      | none => .error .keyErrorPath
      | some p => .ok (dinsert p o m)

/-- Loading a whole manifest file (this_model / other_model construction in
fs_compare.py): fold the per-line step over the lines, starting from the empty
dict; any per-line failure aborts the whole load. -/
def loadModel (lines : List Line) : Except LoadError Model :=
  lines.foldlM loadStep []

/-- The unhandled exceptions that can abort the comparison loop of
fs_compare.py, plus the AssertionError of its self-check (lines 156-164). -/
inductive CmpError where
  | keyErrorField : CmpError
  | typeErrorCompare : CmpError
  | assertionFailed : CmpError
deriving DecidableEq, Repr

/-- The six classification dicts built by the comparison loop of fs_compare.py
(lines 92-97), with the source's variable names. -/
structure Buckets where
  missing_model : Model
  equal_model : Model
  differing_model : Model
  differing_this_is_newer_model : Model
  differing_other_is_newer_model : Model
  differing_both_same_age_model : Model
deriving DecidableEq, Repr

/-- The initial (empty) classification dicts. -/
def emptyBuckets : Buckets := ⟨[], [], [], [], [], []⟩

/-- The classification outcome of one loop iteration, recording which bucket is
assigned and with which key/record data (lines 101-133 of fs_compare.py). -/
inductive KOut where
  | missingK (orec : Obj) : KOut
  | equalK (orec : Obj) : KOut
  | otherNewerK (orec : Obj) : KOut
  | thisNewerK (orec : Obj) (tp : JVal) (trec : Obj) : KOut
  | sameAgeK (orec : Obj) (tp : JVal) (trec : Obj) : KOut
deriving DecidableEq, Repr

/-- The branch structure of one iteration of the comparison loop of
fs_compare.py (lines 101-133) for the pair (other_path, other_record):
membership of other_path in this_model, this_path = this_record["path"]
(line 107), the checksum inequality test (line 111), and the last_modified
comparison chain (lines 118-130).  Field accesses on records may raise KeyError
and ordering on non-comparable values raises TypeError; both abort the run. -/
def keyClass (tm : Model) (op : JVal) (orec : Obj) : Except CmpError KOut :=
  match dget tm op with
  | none => .ok (.missingK orec)
  | some trec =>
      match Obj.get trec "path" with
      | none => .error .keyErrorField
      | some tp =>
          match Obj.get orec "checksum", Obj.get trec "checksum" with
          | some oc, some tc =>
              if pyNorm oc = pyNorm tc then
                .ok (.equalK orec)
              else
                match Obj.get orec "last_modified", Obj.get trec "last_modified" with
                | some olm, some tlm =>
                    match pyLt tlm olm with
                    | none => .error .typeErrorCompare
                    | some true => .ok (.otherNewerK orec)
                    | some false =>
                        match pyLt olm tlm with
                        | none => .error .typeErrorCompare
                        | some true => .ok (.thisNewerK orec tp trec)
                        | some false => .ok (.sameAgeK orec tp trec)
                | _, _ => .error .keyErrorField
          | _, _ => .error .keyErrorField

/-- The bucket updates performed by one iteration of the comparison loop: the
missing/equal buckets and the coarse differing bucket are keyed by other_path
with other_record (lines 104, 115, 122, 133); the this-newer and same-age
buckets are keyed by this_path with this_record (lines 125, 130). -/
def applyOut (b : Buckets) (op : JVal) : KOut → Buckets
  | .missingK orec => { b with missing_model := dinsert op orec b.missing_model }
  | .equalK orec => { b with equal_model := dinsert op orec b.equal_model }
  | .otherNewerK orec =>
      { b with differing_model := dinsert op orec b.differing_model,
               differing_other_is_newer_model :=
                 dinsert op orec b.differing_other_is_newer_model }
  | .thisNewerK orec tp trec =>
      { b with differing_model := dinsert op orec b.differing_model,
               differing_this_is_newer_model :=
                 dinsert tp trec b.differing_this_is_newer_model }
  | .sameAgeK orec tp trec =>
      { b with differing_model := dinsert op orec b.differing_model,
               differing_both_same_age_model :=
                 dinsert tp trec b.differing_both_same_age_model }

/-- One full iteration of the comparison loop: classify the pair and update the
buckets accordingly (an exception inside the iteration aborts the run, so the
partial bucket updates preceding it are never observable). -/
def classifyStep (tm : Model) (b : Buckets) (kv : JVal × Obj) : Except CmpError Buckets :=
  Except.map (applyOut b kv.1) (keyClass tm kv.1 kv.2)

/-- The whole comparison loop of fs_compare.py (for other_path, other_record in
other_model.items(): ...), iterating other_model in dict order. -/
def classifyAll (tm om : Model) : Except CmpError Buckets :=
  om.foldlM (fun b kv => classifyStep tm b kv) emptyBuckets

/-- The two assertions after the loop (lines 156-164 of fs_compare.py), in
source order; a failing assertion aborts the run. -/
def checkAsserts (om : Model) (b : Buckets) : Except CmpError Buckets :=
  if b.missing_model.length + b.equal_model.length + b.differing_model.length
      = om.length then
    if b.missing_model.length + b.equal_model.length
        + b.differing_this_is_newer_model.length
        + b.differing_other_is_newer_model.length
        + b.differing_both_same_age_model.length
        = om.length then
      .ok b
    else .error .assertionFailed
  else .error .assertionFailed

/-- Failure modes of a whole compare run: a load failure on either side or a
failure in the comparison/assertion phase. -/
inductive CompareError where
  | loadThis (e : LoadError) : CompareError
  | loadOther (e : LoadError) : CompareError
  | cmp (e : CmpError) : CompareError
deriving DecidableEq, Repr

/-- The compare command of fs_compare.py on already-opened line streams: load
this_model, load other_model, run the classification loop, run the assertions.
(Existence checks on the two file paths, logging and the optional dump of
artifacts are I/O outside the embedding.) -/
def compare (thisLines otherLines : List Line) : Except CompareError Buckets :=
  match loadModel thisLines with
  | .error e => .error (.loadThis e)
  | .ok this_model =>
      match loadModel otherLines with
      | .error e => .error (.loadOther e)
      | .ok other_model =>
          match classifyAll this_model other_model with
          | .error e => .error (.cmp e)
          | .ok b =>
              match checkAsserts other_model b with
              | .error e => .error (.cmp e)
              | .ok b' => .ok b'

/-- The (path, record) pairs the loader would insert, in line order. -/
def entries (lines : List Line) : List (JVal × Obj) :=
  lines.filterMap fun l =>
    match l with
    | .obj o => (Obj.get o "path").map (fun p => (p, o))
    | _ => none

/-- Pairwise distinctness of the keys of an association list, up to Python key
equality. -/
def distinctKeysB : List (JVal × Obj) → Bool
  | [] => true
  | p :: rest =>
      rest.all (fun q => !(decide (pyNorm q.1 = pyNorm p.1))) && distinctKeysB rest

/-- Lines the loader accepts: blank lines and objects carrying a "path" field.
Note that no "checksum" field is required at load time. -/
def goodLine : Line → Bool
  | .blank => true
  | .badJson => false
  | .nonObj _ => false
  | .obj o => (Obj.get o "path").isSome

/-- Key/record coherence of a loaded manifest: every stored record carries a
"path" field Python-equal to its dict key. -/
def Coherent (m : Model) : Prop :=
  ∀ p ∈ m, ∃ q, Obj.get p.2 "path" = some q ∧ pyNorm q = pyNorm p.1

/-- The key k occurs in none of the six buckets. -/
def FreshAt (b : Buckets) (k : JVal) : Prop :=
  dget b.missing_model k = none ∧ dget b.equal_model k = none ∧
  dget b.differing_model k = none ∧ dget b.differing_this_is_newer_model k = none ∧
  dget b.differing_other_is_newer_model k = none ∧
  dget b.differing_both_same_age_model k = none

/-- The six buckets of b and b' agree at the key k. -/
def sameAt (b b' : Buckets) (k : JVal) : Prop :=
  dget b.missing_model k = dget b'.missing_model k ∧
  dget b.equal_model k = dget b'.equal_model k ∧
  dget b.differing_model k = dget b'.differing_model k ∧
  dget b.differing_this_is_newer_model k = dget b'.differing_this_is_newer_model k ∧
  dget b.differing_other_is_newer_model k = dget b'.differing_other_is_newer_model k ∧
  dget b.differing_both_same_age_model k = dget b'.differing_both_same_age_model k

/-- What the six buckets hold at a key k whose iteration produced the given
outcome: exactly the bucket(s) of the outcome hold the inserted record at k,
the others hold nothing at k. -/
def outSpec (b : Buckets) (k : JVal) : KOut → Prop
  | .missingK orec =>
      dget b.missing_model k = some orec ∧ dget b.equal_model k = none ∧
      dget b.differing_model k = none ∧ dget b.differing_this_is_newer_model k = none ∧
      dget b.differing_other_is_newer_model k = none ∧
      dget b.differing_both_same_age_model k = none
  | .equalK orec =>
      dget b.missing_model k = none ∧ dget b.equal_model k = some orec ∧
      dget b.differing_model k = none ∧ dget b.differing_this_is_newer_model k = none ∧
      dget b.differing_other_is_newer_model k = none ∧
      dget b.differing_both_same_age_model k = none
  | .otherNewerK orec =>
      dget b.missing_model k = none ∧ dget b.equal_model k = none ∧
      dget b.differing_model k = some orec ∧ dget b.differing_this_is_newer_model k = none ∧
      dget b.differing_other_is_newer_model k = some orec ∧
      dget b.differing_both_same_age_model k = none
  | .thisNewerK orec _ trec =>
      dget b.missing_model k = none ∧ dget b.equal_model k = none ∧
      dget b.differing_model k = some orec ∧
      dget b.differing_this_is_newer_model k = some trec ∧
      dget b.differing_other_is_newer_model k = none ∧
      dget b.differing_both_same_age_model k = none
  | .sameAgeK orec _ trec =>
      dget b.missing_model k = none ∧ dget b.equal_model k = none ∧
      dget b.differing_model k = some orec ∧ dget b.differing_this_is_newer_model k = none ∧
      dget b.differing_other_is_newer_model k = none ∧
      dget b.differing_both_same_age_model k = some trec

/-- The branch conditions recorded by each outcome of `keyClass` (its full
inversion): which tests of lines 101-130 of fs_compare.py were taken with which
field values. -/
def KOutOK (tm : Model) (op : JVal) (orec : Obj) : KOut → Prop
  | .missingK orec' => orec' = orec ∧ dget tm op = none
  | .equalK orec' => orec' = orec ∧ ∃ trec tp oc tc,
      dget tm op = some trec ∧ Obj.get trec "path" = some tp ∧
      Obj.get orec "checksum" = some oc ∧ Obj.get trec "checksum" = some tc ∧
      pyNorm oc = pyNorm tc
  | .otherNewerK orec' => orec' = orec ∧ ∃ trec tp oc tc olm tlm,
      dget tm op = some trec ∧ Obj.get trec "path" = some tp ∧
      Obj.get orec "checksum" = some oc ∧ Obj.get trec "checksum" = some tc ∧
      ¬ pyNorm oc = pyNorm tc ∧
      Obj.get orec "last_modified" = some olm ∧
      Obj.get trec "last_modified" = some tlm ∧
      pyLt tlm olm = some true
  | .thisNewerK orec' tp trec => orec' = orec ∧ dget tm op = some trec ∧
      Obj.get trec "path" = some tp ∧ ∃ oc tc olm tlm,
      Obj.get orec "checksum" = some oc ∧ Obj.get trec "checksum" = some tc ∧
      ¬ pyNorm oc = pyNorm tc ∧
      Obj.get orec "last_modified" = some olm ∧
      Obj.get trec "last_modified" = some tlm ∧
      pyLt tlm olm = some false ∧ pyLt olm tlm = some true
  | .sameAgeK orec' tp trec => orec' = orec ∧ dget tm op = some trec ∧
      Obj.get trec "path" = some tp ∧ ∃ oc tc olm tlm,
      Obj.get orec "checksum" = some oc ∧ Obj.get trec "checksum" = some tc ∧
      ¬ pyNorm oc = pyNorm tc ∧
      Obj.get orec "last_modified" = some olm ∧
      Obj.get trec "last_modified" = some tlm ∧
      pyLt tlm olm = some false ∧ pyLt olm tlm = some false

end FsScanner

namespace FsScanner

/-! Definitions for fs_scanner.py: the scan loop, the checksum dispatch table
and the CLI choice list. -/

/-- The one kind of unhandled exception the modelled scan loop can raise: a
NameError from building a record out of a loop variable that no iteration has
assigned yet (the except clause of fs_scanner.py catches OSError only, and the
record construction sits outside the try block anyway). -/
inductive ScanError where
  | nameError : ScanError
deriving DecidableEq, Repr

/-- One regular-file visit of the scan loop of fs_scanner.py, represented by the
observable outcomes of its filesystem calls: the path (already relative, as
posix), the result of file_path.stat() (st_size and st_mtime, or the OSError
text), the is_file() test, and the result of the selected checksum function
(its value, or the OSError text). -/
structure FileEvent where
  path : String
  statResult : Except String (Nat × ℚ)
  is_file : Bool
  checksumResult : Except String JVal
deriving Repr

/-- The state of the scan loop of fs_scanner.py: the three counters, the
function-scope variables file_size / last_modified / file_checksum (none until
first assigned — referencing them unassigned is the NameError), and the records
written to the output stream. -/
structure ScanState where
  file_count : Nat
  error_count : Nat
  content_size : Nat
  file_size : Option Nat
  last_modified : Option ℚ
  file_checksum : Option JVal
  output : List Obj
deriving Repr

/-- The scan state before the loop (lines 137-140 of fs_scanner.py). -/
def initScanState : ScanState := ⟨0, 0, 0, none, none, none, []⟩

/-- The record construction and write of lines 162-170 of fs_scanner.py: built
from the current values of file_size, last_modified and file_checksum, which
hold stale values from an earlier iteration when the current one failed, and
raise NameError when never assigned. -/
def emitRecord (st : ScanState) (path : String) (state : String) :
    Except ScanError ScanState :=
  match st.file_size, st.last_modified, st.file_checksum with
  | some sz, some lm, some c =>
      .ok { st with output := st.output ++
              [[("path", JVal.str path), ("size", JVal.num (sz : ℚ)),
                ("last_modified", JVal.num lm), ("checksum", c),
                ("check_state", JVal.str state)]] }
  | _, _, _ => .error .nameError

/-- One iteration of the scan loop (lines 142-170 of fs_scanner.py): count the
file, try stat / is_file / size bookkeeping / checksum, on OSError set
check_state to the error text and count the error, then build and write the
record. -/
def scanStep (st : ScanState) (ev : FileEvent) : Except ScanError ScanState :=
  let st1 := { st with file_count := st.file_count + 1 }
  match ev.statResult with
  | .error e =>
      emitRecord { st1 with error_count := st1.error_count + 1 } ev.path e
  | .ok (sz, mt) =>
      if ev.is_file then
        let st2 := { st1 with file_size := some sz, last_modified := some mt,
                              content_size := st1.content_size + sz }
        match ev.checksumResult with
        | .error e =>
            emitRecord { st2 with error_count := st2.error_count + 1 } ev.path e
        | .ok c =>
            emitRecord { st2 with file_checksum := some c } ev.path "OK"
      else .ok st1

/-- The whole scan loop over the regular-file visits of the walk, in traversal
order. -/
def scan (events : List FileEvent) : Except ScanError ScanState :=
  events.foldlM scanStep initScanState

/-- The four checksum functions of fs_scanner.py (lines 32-74), as referenced
by the dispatch table: no_checksum returns None, size_checksum the stat size,
simple_checksum a chunked zlib.adler32, strong_checksum an md5 hex digest (the
hash computations call the external zlib/hashlib libraries). -/
inductive ChecksumFn where
  | no_checksum : ChecksumFn
  | size_checksum : ChecksumFn
  | simple_checksum : ChecksumFn
  | strong_checksum : ChecksumFn
deriving DecidableEq, Repr

/-- The checksum_mapper dict of fs_scanner.py (lines 77-82). -/
def checksum_mapper : List (String × ChecksumFn) :=
  [("none", .no_checksum), ("size", .size_checksum),
   ("simple", .simple_checksum), ("strong", .strong_checksum)]

/-- Lookup in checksum_mapper, as performed at scan time by
checksum_mapper[checksum] (line 156); none models the KeyError. -/
def mapperGet (name : String) : Option ChecksumFn :=
  (checksum_mapper.find? (fun p => p.1 == name)).map (fun p => p.2)

/-- The click.Choice list of the --checksum (-c) option (line 108 of
fs_scanner.py): the strings the scanner CLI accepts for the checksum
strategy. -/
def scan_checksum_choices : List String := ["none", "time", "simple", "strong"]

/-- The default value of the --checksum (-c) option (line 109). -/
def scan_checksum_default : String := "none"

end FsScanner

namespace FsScanner

/-! Concrete manifests used by witnesses and counterexamples: small inputs on
which the loader, the classification loop and the scan loop are evaluated. -/

/-- Witness manifest record on the this side for path a. -/
def wTrecA : Obj :=
  [("path", JVal.str "a"), ("checksum", JVal.num 1), ("last_modified", JVal.num 100)]

/-- Witness manifest record on the this side for path b. -/
def wTrecB : Obj :=
  [("path", JVal.str "b"), ("checksum", JVal.num 1), ("last_modified", JVal.num 100)]

/-- Witness manifest record on the this side for path c. -/
def wTrecC : Obj :=
  [("path", JVal.str "c"), ("checksum", JVal.num 1), ("last_modified", JVal.num 200)]

/-- Witness manifest record on the this side for path e, without a
last_modified field. -/
def wTrecE : Obj := [("path", JVal.str "e"), ("checksum", JVal.num 5)]

/-- Witness manifest record on the other side for path a (same mtime as this,
different checksum). -/
def wOrecA : Obj :=
  [("path", JVal.str "a"), ("checksum", JVal.num 2), ("last_modified", JVal.num 100)]

/-- Witness manifest record on the other side for path b (newer than this). -/
def wOrecB : Obj :=
  [("path", JVal.str "b"), ("checksum", JVal.num 2), ("last_modified", JVal.num 200)]

/-- Witness manifest record on the other side for path c (older than this). -/
def wOrecC : Obj :=
  [("path", JVal.str "c"), ("checksum", JVal.num 2), ("last_modified", JVal.num 100)]

/-- Witness manifest record on the other side for path d (absent from this). -/
def wOrecD : Obj :=
  [("path", JVal.str "d"), ("checksum", JVal.num 9), ("last_modified", JVal.num 100)]

/-- Witness manifest record on the other side for path e, same checksum as
this and no last_modified field. -/
def wOrecE : Obj := [("path", JVal.str "e"), ("checksum", JVal.num 5)]

/-- Witness manifest lines for the this side. -/
def wTL : List Line :=
  [Line.obj wTrecA, Line.obj wTrecB, Line.blank, Line.obj wTrecC, Line.obj wTrecE]

/-- Witness manifest lines for the other side. -/
def wOL : List Line :=
  [Line.obj wOrecA, Line.obj wOrecB, Line.obj wOrecC, Line.obj wOrecD, Line.blank,
   Line.obj wOrecE]

/-- The this model loaded from the witness lines. -/
def wTM : Model := ((loadModel wTL).toOption).getD []

/-- The other model loaded from the witness lines. -/
def wOM : Model := ((loadModel wOL).toOption).getD []

/-- The buckets of the witness classification run. -/
def wB : Buckets := ((classifyAll wTM wOM).toOption).getD emptyBuckets

/-- The witness this lines with the first two records swapped. -/
def wTLswap : List Line :=
  [Line.obj wTrecB, Line.obj wTrecA, Line.blank, Line.obj wTrecC, Line.obj wTrecE]

/-- The witness other lines with the first two records swapped. -/
def wOLswap : List Line :=
  [Line.obj wOrecB, Line.obj wOrecA, Line.obj wOrecC, Line.obj wOrecD, Line.blank,
   Line.obj wOrecE]

/-- The buckets of the full witness compare run. -/
def wCB : Buckets := ((compare wTL wOL).toOption).getD emptyBuckets

/-- A null-checksum (none strategy) record for path a, this side. -/
def wNullTrecA : Obj :=
  [("path", JVal.str "a"), ("checksum", JVal.null), ("last_modified", JVal.num 100)]

/-- A null-checksum record for path a, other side, with a newer mtime. -/
def wNullOrecA : Obj :=
  [("path", JVal.str "a"), ("checksum", JVal.null), ("last_modified", JVal.num 200)]

/-- A null-checksum record for path f, other side only. -/
def wNullOrecF : Obj :=
  [("path", JVal.str "f"), ("checksum", JVal.null), ("last_modified", JVal.num 1)]

/-- Null-checksum this lines. -/
def wNullTL : List Line := [Line.obj wNullTrecA]

/-- Null-checksum other lines. -/
def wNullOL : List Line := [Line.obj wNullOrecA, Line.obj wNullOrecF]

/-- The this model of the null-checksum run. -/
def wNullTM : Model := ((loadModel wNullTL).toOption).getD []

/-- The other model of the null-checksum run. -/
def wNullOM : Model := ((loadModel wNullOL).toOption).getD []

/-- The buckets of the null-checksum classification run. -/
def wNullB : Buckets := ((classifyAll wNullTM wNullOM).toOption).getD emptyBuckets

/-- A manifest line for path a with checksum 1 (duplicate-path example). -/
def c6L1 : Line :=
  Line.obj [("path", JVal.str "a"), ("checksum", JVal.num 1), ("last_modified", JVal.num 0)]

/-- A manifest line for the same path a with checksum 2. -/
def c6L2 : Line :=
  Line.obj [("path", JVal.str "a"), ("checksum", JVal.num 2), ("last_modified", JVal.num 0)]

/-- Buckets of the compare run whose this manifest lists the duplicate path
lines in the order checksum 1 then checksum 2. -/
def c6B1 : Buckets := ((compare [c6L1, c6L2] [c6L1]).toOption).getD emptyBuckets

/-- Buckets of the same compare run with the two duplicate-path lines swapped. -/
def c6B2 : Buckets := ((compare [c6L2, c6L1] [c6L1]).toOption).getD emptyBuckets

end FsScanner

namespace FsScanner

/-! Basic lemmas: Except folds, dict operations, Python comparison. -/

theorem foldlM_except_nil {ε σ α : Type} (f : σ → α → Except ε σ) (s : σ) :
    List.foldlM f s ([] : List α) = .ok s := rfl

theorem foldlM_except_cons {ε σ α : Type} (f : σ → α → Except ε σ) (s : σ) (x : α)
    (xs : List α) :
    List.foldlM f s (x :: xs) = (f s x).bind (fun t => List.foldlM f t xs) := rfl

@[simp] theorem except_bind_ok {ε α β : Type} (a : α) (f : α → Except ε β) :
    (Except.ok a : Except ε α).bind f = f a := rfl

@[simp] theorem except_bind_error {ε α β : Type} (e : ε) (f : α → Except ε β) :
    (Except.error e : Except ε α).bind f = .error e := rfl

theorem dget_nil (k : JVal) : dget [] k = none := rfl

theorem dget_cons (k0 : JVal) (v0 : Obj) (rest : Model) (k : JVal) :
    dget ((k0, v0) :: rest) k =
      if pyNorm k0 = pyNorm k then some v0 else dget rest k := rfl

theorem dget_congr {k k' : JVal} (h : pyNorm k = pyNorm k') (m : Model) :
    dget m k = dget m k' := by
  induction m with
  | nil => rfl
  | cons hd tl ih =>
      obtain ⟨k0, v0⟩ := hd
      rw [dget_cons, dget_cons, h, ih]

theorem dget_dinsert (m : Model) (k k' : JVal) (v : Obj) :
    dget (dinsert k v m) k' = if pyNorm k' = pyNorm k then some v else dget m k' := by
  induction m with
  | nil =>
      simp only [dinsert, dget]
      by_cases h : pyNorm k' = pyNorm k
      · rw [if_pos h, if_pos h.symm]
      · rw [if_neg h, if_neg (fun hh => h hh.symm)]
  | cons hd tl ih =>
      obtain ⟨k0, v0⟩ := hd
      by_cases h : pyNorm k' = pyNorm k
      · rw [if_pos h]
        by_cases h0 : pyNorm k0 = pyNorm k
        · simp only [dinsert, if_pos h0, dget_cons, if_pos (h0.trans h.symm)]
        · have hk0 : ¬ pyNorm k0 = pyNorm k' := fun hh => h0 (hh.trans h)
          simp only [dinsert, if_neg h0, dget_cons, if_neg hk0, ih, if_pos h]
      · rw [if_neg h]
        by_cases h0 : pyNorm k0 = pyNorm k
        · have hk0 : ¬ pyNorm k0 = pyNorm k' := fun hh => h (hh.symm.trans h0)
          simp only [dinsert, if_pos h0, dget_cons, if_neg hk0]
        · simp only [dinsert, if_neg h0, dget_cons, ih, if_neg h]

theorem mem_dinsert {m : Model} {k : JVal} {v : Obj} {p : JVal × Obj}
    (h : p ∈ dinsert k v m) : p ∈ m ∨ (p.2 = v ∧ pyNorm p.1 = pyNorm k) := by
  induction m with
  | nil =>
      simp only [dinsert, List.mem_singleton] at h
      subst h
      exact Or.inr ⟨rfl, rfl⟩
  | cons hd tl ih =>
      obtain ⟨k0, v0⟩ := hd
      by_cases h0 : pyNorm k0 = pyNorm k
      · rw [dinsert, if_pos h0] at h
        rcases List.mem_cons.mp h with h1 | h1
        · subst h1
          exact Or.inr ⟨rfl, h0⟩
        · exact Or.inl (List.mem_cons_of_mem _ h1)
      · rw [dinsert, if_neg h0] at h
        rcases List.mem_cons.mp h with h1 | h1
        · exact Or.inl (h1 ▸ List.mem_cons_self _ _)
        · rcases ih h1 with h2 | h2
          · exact Or.inl (List.mem_cons_of_mem _ h2)
          · exact Or.inr h2

theorem dget_eq_none_of_all {m : Model} {k : JVal}
    (h : ∀ p ∈ m, ¬ pyNorm p.1 = pyNorm k) : dget m k = none := by
  induction m with
  | nil => rfl
  | cons hd tl ih =>
      obtain ⟨k0, v0⟩ := hd
      rw [dget_cons, if_neg (h (k0, v0) (List.mem_cons_self _ _))]
      exact ih (fun p hp => h p (List.mem_cons_of_mem _ hp))

theorem dget_mem {m : Model} {k : JVal} {v : Obj} (h : dget m k = some v) :
    ∃ k', (k', v) ∈ m ∧ pyNorm k' = pyNorm k := by
  induction m with
  | nil => exact absurd h (by simp [dget])
  | cons hd tl ih =>
      obtain ⟨k0, v0⟩ := hd
      rw [dget_cons] at h
      by_cases h0 : pyNorm k0 = pyNorm k
      · rw [if_pos h0] at h
        refine ⟨k0, ?_, h0⟩
        rw [← Option.some.inj h]
        exact List.mem_cons_self _ _
      · rw [if_neg h0] at h
        obtain ⟨k', hm, hk⟩ := ih h
        exact ⟨k', List.mem_cons_of_mem _ hm, hk⟩

theorem length_dinsert_fresh {m : Model} {k : JVal} (v : Obj) (h : dget m k = none) :
    (dinsert k v m).length = m.length + 1 := by
  induction m with
  | nil => rfl
  | cons hd tl ih =>
      obtain ⟨k0, v0⟩ := hd
      rw [dget_cons] at h
      by_cases h0 : pyNorm k0 = pyNorm k
      · rw [if_pos h0] at h
        exact absurd h (by simp)
      · rw [if_neg h0] at h
        rw [dinsert, if_neg h0, List.length_cons, List.length_cons, ih h]

theorem distinct_head {p : JVal × Obj} {rest : List (JVal × Obj)}
    (h : distinctKeysB (p :: rest) = true) :
    (∀ q ∈ rest, ¬ pyNorm q.1 = pyNorm p.1) ∧ distinctKeysB rest = true := by
  rw [distinctKeysB, Bool.and_eq_true, List.all_eq_true] at h
  refine ⟨fun q hq => ?_, h.2⟩
  have := h.1 q hq
  simpa using this

theorem distinct_cons {p : JVal × Obj} {rest : List (JVal × Obj)}
    (h1 : ∀ q ∈ rest, ¬ pyNorm q.1 = pyNorm p.1) (h2 : distinctKeysB rest = true) :
    distinctKeysB (p :: rest) = true := by
  rw [distinctKeysB, Bool.and_eq_true, List.all_eq_true]
  exact ⟨fun q hq => by simpa using h1 q hq, h2⟩

theorem distinct_dinsert {m : Model} {k : JVal} (v : Obj)
    (h : distinctKeysB m = true) : distinctKeysB (dinsert k v m) = true := by
  induction m with
  | nil => rfl
  | cons hd tl ih =>
      obtain ⟨k0, v0⟩ := hd
      obtain ⟨hh, ht⟩ := distinct_head h
      by_cases h0 : pyNorm k0 = pyNorm k
      · rw [dinsert, if_pos h0]
        exact distinct_cons hh ht
      · rw [dinsert, if_neg h0]
        refine distinct_cons (fun q hq => ?_) (ih ht)
        rcases mem_dinsert hq with h1 | h1
        · exact hh q h1
        · exact fun hc => h0 (hc.symm.trans h1.2)

theorem coherent_nil : Coherent [] := by
  intro p hp
  cases hp

theorem coherent_dinsert {m : Model} {o : Obj} {p : JVal}
    (hm : Coherent m) (ho : Obj.get o "path" = some p) : Coherent (dinsert p o m) := by
  intro q hq
  rcases mem_dinsert hq with h | ⟨h2, hk⟩
  · exact hm q h
  · exact ⟨p, by rw [h2]; exact ho, hk.symm⟩

theorem pyLt_self_ne_true (a : JVal) : pyLt a a ≠ some true := by
  unfold pyLt
  cases h : pyNorm a with
  | null => simp
  | bool b => simp
  | num x => simp [lt_irrefl]
  | str s => simp [lt_irrefl]

theorem pyLt_asymm {a b : JVal} (h : pyLt a b = some true) : pyLt b a = some false := by
  unfold pyLt at h ⊢
  cases ha : pyNorm a <;> cases hb : pyNorm b <;> rw [ha, hb] at h <;> simp_all
  · exact le_of_lt h
  · exact le_of_lt h

end FsScanner

namespace FsScanner

/-! Lemmas about the manifest loader. -/

theorem load_aux_coherent (ls : List Line) :
    ∀ (m0 m : Model), Coherent m0 → List.foldlM loadStep m0 ls = .ok m → Coherent m := by
  induction ls with
  | nil =>
      intro m0 m h0 hf
      rw [foldlM_except_nil] at hf
      cases hf
      exact h0
  | cons l tl ih =>
      intro m0 m h0 hf
      rw [foldlM_except_cons] at hf
      cases l with
      | blank =>
          simp only [loadStep, except_bind_ok] at hf
          exact ih m0 m h0 hf
      | badJson => simp [loadStep] at hf
      | nonObj v => simp [loadStep] at hf
      | obj o =>
          cases hp : Obj.get o "path" with
          | none => simp [loadStep, hp] at hf
          | some p =>
              simp only [loadStep, hp, except_bind_ok] at hf
              exact ih _ m (coherent_dinsert h0 hp) hf

theorem load_coherent {ls : List Line} {m : Model} (h : loadModel ls = .ok m) :
    Coherent m :=
  load_aux_coherent ls [] m coherent_nil h

theorem load_aux_distinct (ls : List Line) :
    ∀ (m0 m : Model), distinctKeysB m0 = true → List.foldlM loadStep m0 ls = .ok m →
      distinctKeysB m = true := by
  induction ls with
  | nil =>
      intro m0 m h0 hf
      rw [foldlM_except_nil] at hf
      cases hf
      exact h0
  | cons l tl ih =>
      intro m0 m h0 hf
      rw [foldlM_except_cons] at hf
      cases l with
      | blank =>
          simp only [loadStep, except_bind_ok] at hf
          exact ih m0 m h0 hf
      | badJson => simp [loadStep] at hf
      | nonObj v => simp [loadStep] at hf
      | obj o =>
          cases hp : Obj.get o "path" with
          | none => simp [loadStep, hp] at hf
          | some p =>
              simp only [loadStep, hp, except_bind_ok] at hf
              exact ih _ m (distinct_dinsert o h0) hf

theorem load_distinct {ls : List Line} {m : Model} (h : loadModel ls = .ok m) :
    distinctKeysB m = true :=
  load_aux_distinct ls [] m rfl h

theorem load_aux_good (ls : List Line) :
    ∀ (m0 m : Model), List.foldlM loadStep m0 ls = .ok m → ∀ l ∈ ls, goodLine l = true := by
  induction ls with
  | nil => intro m0 m _ l hl; cases hl
  | cons l0 tl ih =>
      intro m0 m hf l hl
      rw [foldlM_except_cons] at hf
      rcases List.mem_cons.mp hl with rfl | hl'
      · cases l with
        | blank => rfl
        | badJson => simp [loadStep] at hf
        | nonObj v => simp [loadStep] at hf
        | obj o =>
            cases hp : Obj.get o "path" with
            | none => simp [loadStep, hp] at hf
            | some p => simp [goodLine, hp]
      · cases l0 with
        | blank =>
            simp only [loadStep, except_bind_ok] at hf
            exact ih m0 m hf l hl'
        | badJson => simp [loadStep] at hf
        | nonObj v => simp [loadStep] at hf
        | obj o =>
            cases hp : Obj.get o "path" with
            | none => simp [loadStep, hp] at hf
            | some p =>
                simp only [loadStep, hp, except_bind_ok] at hf
                exact ih _ m hf l hl'

theorem load_aux_ok_of_good (ls : List Line) :
    ∀ (m0 : Model), (∀ l ∈ ls, goodLine l = true) →
      ∃ m, List.foldlM loadStep m0 ls = .ok m := by
  induction ls with
  | nil => intro m0 _; exact ⟨m0, rfl⟩
  | cons l0 tl ih =>
      intro m0 hg
      have h0 := hg l0 (List.mem_cons_self _ _)
      cases l0 with
      | blank =>
          obtain ⟨m, hm⟩ := ih m0 (fun l hl => hg l (List.mem_cons_of_mem _ hl))
          exact ⟨m, by rw [foldlM_except_cons]; simpa [loadStep]⟩
      | badJson => simp [goodLine] at h0
      | nonObj v => simp [goodLine] at h0
      | obj o =>
          rw [goodLine] at h0
          cases hp : Obj.get o "path" with
          | none => rw [hp] at h0; simp at h0
          | some p =>
              obtain ⟨m, hm⟩ :=
                ih (dinsert p o m0) (fun l hl => hg l (List.mem_cons_of_mem _ hl))
              refine ⟨m, by rw [foldlM_except_cons]; simp only [loadStep, hp,
                except_bind_ok]; exact hm⟩

theorem load_aux_bad (ls : List Line) :
    ∀ (m0 : Model) (l : Line), l ∈ ls → goodLine l = false →
      ∃ e, List.foldlM loadStep m0 ls = .error e := by
  induction ls with
  | nil => intro m0 l hl _; cases hl
  | cons l0 tl ih =>
      intro m0 l hl hbad
      rcases List.mem_cons.mp hl with rfl | hl'
      · cases l with
        | blank => simp [goodLine] at hbad
        | badJson => exact ⟨.jsonDecodeError, by rw [foldlM_except_cons]; rfl⟩
        | nonObj v => exact ⟨.typeErrorOnIndex, by rw [foldlM_except_cons]; rfl⟩
        | obj o =>
            rw [goodLine] at hbad
            cases hp : Obj.get o "path" with
            | none =>
                exact ⟨.keyErrorPath, by rw [foldlM_except_cons]; simp [loadStep, hp]⟩
            | some p => rw [hp] at hbad; simp at hbad
      · cases hstep : loadStep m0 l0 with
        | error e => exact ⟨e, by rw [foldlM_except_cons, hstep]; rfl⟩
        | ok m1 =>
            obtain ⟨e, he⟩ := ih m1 l hl' hbad
            exact ⟨e, by rw [foldlM_except_cons, hstep, except_bind_ok]; exact he⟩

theorem load_aux_blank (post pre : List Line) :
    ∀ m0, List.foldlM loadStep m0 (pre ++ Line.blank :: post)
        = List.foldlM loadStep m0 (pre ++ post) := by
  induction pre with
  | nil =>
      intro m0
      rw [List.nil_append, List.nil_append, foldlM_except_cons]
      rfl
  | cons l0 pre' ih =>
      intro m0
      rw [List.cons_append, List.cons_append, foldlM_except_cons, foldlM_except_cons]
      cases hstep : loadStep m0 l0 with
      | error e => rfl
      | ok m1 =>
          simp only [except_bind_ok]
          exact ih m1

theorem load_aux_entries (ls : List Line) :
    ∀ (m0 m : Model), List.foldlM loadStep m0 ls = .ok m →
      m = (entries ls).foldl (fun acc p => dinsert p.1 p.2 acc) m0 := by
  induction ls with
  | nil =>
      intro m0 m hf
      rw [foldlM_except_nil] at hf
      cases hf
      rfl
  | cons l0 tl ih =>
      intro m0 m hf
      rw [foldlM_except_cons] at hf
      cases l0 with
      | blank =>
          simp only [loadStep, except_bind_ok] at hf
          simpa [entries, List.filterMap_cons] using ih m0 m hf
      | badJson => simp [loadStep] at hf
      | nonObj v => simp [loadStep] at hf
      | obj o =>
          cases hp : Obj.get o "path" with
          | none => simp [loadStep, hp] at hf
          | some p =>
              simp only [loadStep, hp, except_bind_ok] at hf
              simpa [entries, List.filterMap_cons, hp] using ih _ m hf

theorem dget_foldl_none (es : List (JVal × Obj)) :
    ∀ (m0 : Model) (k : JVal), dget es k = none →
      dget (es.foldl (fun acc p => dinsert p.1 p.2 acc) m0) k = dget m0 k := by
  induction es with
  | nil => intro m0 k _; rfl
  | cons p es' ih =>
      intro m0 k h
      obtain ⟨kp, vp⟩ := p
      rw [dget_cons] at h
      by_cases hk : pyNorm kp = pyNorm k
      · rw [if_pos hk] at h
        simp at h
      · rw [if_neg hk] at h
        rw [List.foldl_cons, ih _ k h, dget_dinsert,
          if_neg (fun hh => hk hh.symm)]

theorem dget_foldl_some (es : List (JVal × Obj)) :
    ∀ (m0 : Model) (k : JVal) (v : Obj), distinctKeysB es = true → dget es k = some v →
      dget (es.foldl (fun acc p => dinsert p.1 p.2 acc) m0) k = some v := by
  induction es with
  | nil => intro m0 k v _ h; simp [dget] at h
  | cons p es' ih =>
      intro m0 k v hd h
      obtain ⟨kp, vp⟩ := p
      obtain ⟨hh, ht⟩ := distinct_head hd
      rw [dget_cons] at h
      rw [List.foldl_cons]
      by_cases hk : pyNorm kp = pyNorm k
      · rw [if_pos hk] at h
        have hnone : dget es' k = none :=
          dget_eq_none_of_all (fun q hq hc => (hh q hq) (hc.trans hk.symm))
        rw [dget_foldl_none es' _ k hnone, dget_dinsert, if_pos hk.symm]
        exact h
      · rw [if_neg hk] at h
        exact ih _ k v ht h

theorem dget_loadModel {ls : List Line} {m : Model} (h : loadModel ls = .ok m)
    (hd : distinctKeysB (entries ls) = true) (k : JVal) :
    dget m k = dget (entries ls) k := by
  have hm := load_aux_entries ls [] m h
  cases he : dget (entries ls) k with
  | none => rw [hm, dget_foldl_none _ _ _ he]; rfl
  | some v => rw [hm, dget_foldl_some _ _ _ _ hd he]

theorem dget_of_mem_distinct (m : Model) :
    ∀ {k' : JVal} {v : Obj} {k : JVal}, distinctKeysB m = true → (k', v) ∈ m →
      pyNorm k' = pyNorm k → dget m k = some v := by
  induction m with
  | nil => intro k' v k _ hm _; cases hm
  | cons p rest ih =>
      intro k' v k hd hm hk
      obtain ⟨k0, v0⟩ := p
      obtain ⟨hh, ht⟩ := distinct_head hd
      rw [dget_cons]
      rcases List.mem_cons.mp hm with heq | hmem
      · cases heq
        rw [if_pos hk]
      · rw [if_neg (fun hc => (hh (k', v) hmem) (hk.trans hc.symm))]
        exact ih ht hmem hk

theorem distinctKeysB_iff_pairwise (l : List (JVal × Obj)) :
    distinctKeysB l = true ↔ l.Pairwise (fun p q => ¬ pyNorm q.1 = pyNorm p.1) := by
  induction l with
  | nil => simp [distinctKeysB]
  | cons p rest ih =>
      rw [List.pairwise_cons]
      constructor
      · intro h
        obtain ⟨hh, ht⟩ := distinct_head h
        exact ⟨hh, ih.mp ht⟩
      · rintro ⟨hh, ht⟩
        exact distinct_cons hh (ih.mpr ht)

theorem distinct_perm {es es' : List (JVal × Obj)} (hp : es.Perm es')
    (hd : distinctKeysB es = true) : distinctKeysB es' = true := by
  rw [distinctKeysB_iff_pairwise] at hd ⊢
  exact (List.Perm.pairwise_iff (fun h hc => h hc.symm) hp).mp hd

theorem dget_perm {es es' : List (JVal × Obj)} (hp : es.Perm es')
    (hd : distinctKeysB es = true) (k : JVal) : dget es k = dget es' k := by
  have hd' := distinct_perm hp hd
  cases he : dget es k with
  | some v =>
      obtain ⟨k', hm, hk⟩ := dget_mem he
      rw [dget_of_mem_distinct es' hd' (hp.subset hm) hk]
  | none =>
      cases he' : dget es' k with
      | none => rfl
      | some v =>
          obtain ⟨k', hm, hk⟩ := dget_mem he'
          rw [dget_of_mem_distinct es hd (hp.symm.subset hm) hk] at he
          exact Option.noConfusion he

end FsScanner

namespace FsScanner

/-! Lemmas about the classification loop. -/

theorem keyClass_inv {tm : Model} {op : JVal} {orec : Obj} {out : KOut}
    (h : keyClass tm op orec = .ok out) : KOutOK tm op orec out := by
  unfold keyClass at h
  split at h
  · cases h
    rename_i htm
    exact ⟨rfl, htm⟩
  · rename_i trec htm
    split at h
    · exact Except.noConfusion h
    · rename_i tp hp
      split at h
      · rename_i oc tc hoc htc
        split at h
        · rename_i heq
          cases h
          exact ⟨rfl, trec, tp, oc, tc, htm, hp, hoc, htc, heq⟩
        · rename_i hneq
          split at h
          · rename_i olm tlm holm htlm
            split at h
            · exact Except.noConfusion h
            · rename_i hlt
              cases h
              exact ⟨rfl, trec, tp, oc, tc, olm, tlm, htm, hp, hoc, htc, hneq,
                holm, htlm, hlt⟩
            · rename_i hlt
              split at h
              · exact Except.noConfusion h
              · rename_i hlt2
                cases h
                exact ⟨rfl, htm, hp, oc, tc, olm, tlm, hoc, htc, hneq, holm,
                  htlm, hlt, hlt2⟩
              · rename_i hlt2
                cases h
                exact ⟨rfl, htm, hp, oc, tc, olm, tlm, hoc, htc, hneq, holm,
                  htlm, hlt, hlt2⟩
          · exact Except.noConfusion h
      · exact Except.noConfusion h

theorem keyClass_dget_congr {tm tm' : Model} {op : JVal} (orec : Obj)
    (h : dget tm op = dget tm' op) : keyClass tm op orec = keyClass tm' op orec := by
  unfold keyClass
  rw [h]

theorem keyClass_key_congr {tm : Model} {op k : JVal} (orec : Obj)
    (h : pyNorm op = pyNorm k) : keyClass tm op orec = keyClass tm k orec := by
  unfold keyClass
  rw [dget_congr h]

theorem kout_tp_norm {tm : Model} {op : JVal} {orec : Obj} {out : KOut}
    (hcoh : Coherent tm) (hinv : KOutOK tm op orec out) :
    ∀ {orec' : Obj} {tp : JVal} {trec : Obj},
      out = .thisNewerK orec' tp trec ∨ out = .sameAgeK orec' tp trec →
      pyNorm tp = pyNorm op := by
  intro orec' tp trec hout
  rcases hout with rfl | rfl
  · obtain ⟨-, htm, hp, -⟩ := hinv
    obtain ⟨k', hm, hk⟩ := dget_mem htm
    obtain ⟨q, hq, hq2⟩ := hcoh (k', trec) hm
    rw [hp] at hq
    cases hq
    exact hq2.trans hk
  · obtain ⟨-, htm, hp, -⟩ := hinv
    obtain ⟨k', hm, hk⟩ := dget_mem htm
    obtain ⟨q, hq, hq2⟩ := hcoh (k', trec) hm
    rw [hp] at hq
    cases hq
    exact hq2.trans hk

theorem sameAt_refl (b : Buckets) (k : JVal) : sameAt b b k :=
  ⟨rfl, rfl, rfl, rfl, rfl, rfl⟩

theorem sameAt_trans {a b c : Buckets} {k : JVal} (h1 : sameAt a b k)
    (h2 : sameAt b c k) : sameAt a c k := by
  obtain ⟨x1, x2, x3, x4, x5, x6⟩ := h1
  obtain ⟨y1, y2, y3, y4, y5, y6⟩ := h2
  exact ⟨x1.trans y1, x2.trans y2, x3.trans y3, x4.trans y4, x5.trans y5, x6.trans y6⟩

theorem sameAt_applyOut {tm : Model} {b0 : Buckets} {op k : JVal} {orec : Obj}
    {out : KOut} (hcoh : Coherent tm) (hkc : keyClass tm op orec = .ok out)
    (hne : ¬ pyNorm k = pyNorm op) : sameAt (applyOut b0 op out) b0 k := by
  have hinv := keyClass_inv hkc
  cases out with
  | missingK orec' =>
      exact ⟨by rw [show (applyOut b0 op (.missingK orec')).missing_model
          = dinsert op orec' b0.missing_model from rfl, dget_dinsert, if_neg hne],
        rfl, rfl, rfl, rfl, rfl⟩
  | equalK orec' =>
      exact ⟨rfl, by rw [show (applyOut b0 op (.equalK orec')).equal_model
          = dinsert op orec' b0.equal_model from rfl, dget_dinsert, if_neg hne],
        rfl, rfl, rfl, rfl⟩
  | otherNewerK orec' =>
      exact ⟨rfl, rfl,
        by rw [show (applyOut b0 op (.otherNewerK orec')).differing_model
          = dinsert op orec' b0.differing_model from rfl, dget_dinsert, if_neg hne],
        rfl,
        by rw [show (applyOut b0 op (.otherNewerK orec')).differing_other_is_newer_model
          = dinsert op orec' b0.differing_other_is_newer_model from rfl,
          dget_dinsert, if_neg hne],
        rfl⟩
  | thisNewerK orec' tp trec =>
      have htp : pyNorm tp = pyNorm op := kout_tp_norm hcoh hinv (Or.inl rfl)
      exact ⟨rfl, rfl,
        by rw [show (applyOut b0 op (.thisNewerK orec' tp trec)).differing_model
          = dinsert op orec' b0.differing_model from rfl, dget_dinsert, if_neg hne],
        by rw [show (applyOut b0 op (.thisNewerK orec' tp trec)).differing_this_is_newer_model
          = dinsert tp trec b0.differing_this_is_newer_model from rfl,
          dget_dinsert, if_neg (fun hc => hne (hc.trans htp))],
        rfl, rfl⟩
  | sameAgeK orec' tp trec =>
      have htp : pyNorm tp = pyNorm op := kout_tp_norm hcoh hinv (Or.inr rfl)
      exact ⟨rfl, rfl,
        by rw [show (applyOut b0 op (.sameAgeK orec' tp trec)).differing_model
          = dinsert op orec' b0.differing_model from rfl, dget_dinsert, if_neg hne],
        rfl, rfl,
        by rw [show (applyOut b0 op (.sameAgeK orec' tp trec)).differing_both_same_age_model
          = dinsert tp trec b0.differing_both_same_age_model from rfl,
          dget_dinsert, if_neg (fun hc => hne (hc.trans htp))]⟩

theorem freshAt_of_sameAt {b b0 : Buckets} {k : JVal} (hs : sameAt b b0 k)
    (hf : FreshAt b0 k) : FreshAt b k := by
  obtain ⟨s1, s2, s3, s4, s5, s6⟩ := hs
  obtain ⟨f1, f2, f3, f4, f5, f6⟩ := hf
  exact ⟨s1.trans f1, s2.trans f2, s3.trans f3, s4.trans f4, s5.trans f5, s6.trans f6⟩

theorem outSpec_of_sameAt {b b1 : Buckets} {k : JVal} {out : KOut}
    (hs : sameAt b b1 k) (h : outSpec b1 k out) : outSpec b k out := by
  obtain ⟨s1, s2, s3, s4, s5, s6⟩ := hs
  cases out <;>
    · obtain ⟨h1, h2, h3, h4, h5, h6⟩ := h
      exact ⟨s1.trans h1, s2.trans h2, s3.trans h3, s4.trans h4, s5.trans h5,
        s6.trans h6⟩

theorem outSpec_applyOut {tm : Model} {b0 : Buckets} {op k : JVal} {orec : Obj}
    {out : KOut} (hcoh : Coherent tm) (hkc : keyClass tm op orec = .ok out)
    (hfresh : FreshAt b0 op) (hk : pyNorm op = pyNorm k) :
    outSpec (applyOut b0 op out) k out := by
  have hinv := keyClass_inv hkc
  obtain ⟨f1, f2, f3, f4, f5, f6⟩ := hfresh
  have g1 : dget b0.missing_model k = none := (dget_congr hk _).symm.trans f1
  have g2 : dget b0.equal_model k = none := (dget_congr hk _).symm.trans f2
  have g3 : dget b0.differing_model k = none := (dget_congr hk _).symm.trans f3
  have g4 : dget b0.differing_this_is_newer_model k = none :=
    (dget_congr hk _).symm.trans f4
  have g5 : dget b0.differing_other_is_newer_model k = none :=
    (dget_congr hk _).symm.trans f5
  have g6 : dget b0.differing_both_same_age_model k = none :=
    (dget_congr hk _).symm.trans f6
  cases out with
  | missingK orec' =>
      exact ⟨by rw [show (applyOut b0 op (.missingK orec')).missing_model
          = dinsert op orec' b0.missing_model from rfl, dget_dinsert,
          if_pos hk.symm], g2, g3, g4, g5, g6⟩
  | equalK orec' =>
      exact ⟨g1, by rw [show (applyOut b0 op (.equalK orec')).equal_model
          = dinsert op orec' b0.equal_model from rfl, dget_dinsert,
          if_pos hk.symm], g3, g4, g5, g6⟩
  | otherNewerK orec' =>
      exact ⟨g1, g2,
        by rw [show (applyOut b0 op (.otherNewerK orec')).differing_model
          = dinsert op orec' b0.differing_model from rfl, dget_dinsert,
          if_pos hk.symm],
        g4,
        by rw [show (applyOut b0 op (.otherNewerK orec')).differing_other_is_newer_model
          = dinsert op orec' b0.differing_other_is_newer_model from rfl,
          dget_dinsert, if_pos hk.symm],
        g6⟩
  | thisNewerK orec' tp trec =>
      have htp : pyNorm tp = pyNorm op := kout_tp_norm hcoh hinv (Or.inl rfl)
      exact ⟨g1, g2,
        by rw [show (applyOut b0 op (.thisNewerK orec' tp trec)).differing_model
          = dinsert op orec' b0.differing_model from rfl, dget_dinsert,
          if_pos hk.symm],
        by rw [show (applyOut b0 op (.thisNewerK orec' tp trec)).differing_this_is_newer_model
          = dinsert tp trec b0.differing_this_is_newer_model from rfl,
          dget_dinsert, if_pos (hk.symm.trans htp.symm)],
        g5, g6⟩
  | sameAgeK orec' tp trec =>
      have htp : pyNorm tp = pyNorm op := kout_tp_norm hcoh hinv (Or.inr rfl)
      exact ⟨g1, g2,
        by rw [show (applyOut b0 op (.sameAgeK orec' tp trec)).differing_model
          = dinsert op orec' b0.differing_model from rfl, dget_dinsert,
          if_pos hk.symm],
        g4, g5,
        by rw [show (applyOut b0 op (.sameAgeK orec' tp trec)).differing_both_same_age_model
          = dinsert tp trec b0.differing_both_same_age_model from rfl,
          dget_dinsert, if_pos (hk.symm.trans htp.symm)]⟩

end FsScanner

namespace FsScanner

theorem classify_fold_spec {tm : Model} (hcoh : Coherent tm) (r : List (JVal × Obj)) :
    ∀ (b0 b : Buckets), distinctKeysB r = true → (∀ p ∈ r, FreshAt b0 p.1) →
      List.foldlM (fun b kv => classifyStep tm b kv) b0 r = .ok b →
      ∀ k, (dget r k = none → sameAt b b0 k) ∧
           (∀ orec, dget r k = some orec →
             ∃ out, keyClass tm k orec = .ok out ∧ outSpec b k out) := by
  induction r with
  | nil =>
      intro b0 b _ _ hf k
      rw [foldlM_except_nil] at hf
      cases hf
      exact ⟨fun _ => sameAt_refl b0 k, fun orec h => Option.noConfusion h⟩
  | cons p r' ih =>
      intro b0 b hdist hfresh hf k
      obtain ⟨op, orec0⟩ := p
      obtain ⟨hh, ht⟩ := distinct_head hdist
      rw [foldlM_except_cons] at hf
      cases hkc : keyClass tm op orec0 with
      | error e =>
          rw [show classifyStep tm b0 (op, orec0) = .error e from by
            rw [classifyStep, hkc]; rfl] at hf
          simp at hf
      | ok out =>
          rw [show classifyStep tm b0 (op, orec0) = .ok (applyOut b0 op out) from by
            rw [classifyStep, hkc]; rfl, except_bind_ok] at hf
          have hfresh0 : FreshAt b0 op := hfresh (op, orec0) (List.mem_cons_self _ _)
          have hfresh1 : ∀ q ∈ r', FreshAt (applyOut b0 op out) q.1 := by
            intro q hq
            exact freshAt_of_sameAt (sameAt_applyOut hcoh hkc (hh q hq))
              (hfresh q (List.mem_cons_of_mem _ hq))
          have ihs := ih (applyOut b0 op out) b ht hfresh1 hf
          constructor
          · intro hnone
            rw [dget_cons] at hnone
            by_cases hk : pyNorm op = pyNorm k
            · rw [if_pos hk] at hnone
              exact Option.noConfusion hnone
            · rw [if_neg hk] at hnone
              exact sameAt_trans ((ihs k).1 hnone)
                (sameAt_applyOut hcoh hkc (fun hc => hk hc.symm))
          · intro orec hsome
            rw [dget_cons] at hsome
            by_cases hk : pyNorm op = pyNorm k
            · rw [if_pos hk] at hsome
              injection hsome with hio
              subst hio
              refine ⟨out, ?_, ?_⟩
              · rw [← keyClass_key_congr orec0 hk]
                exact hkc
              · have hnone : dget r' k = none :=
                  dget_eq_none_of_all (fun q hq hc => (hh q hq) (hc.trans hk.symm))
                exact outSpec_of_sameAt ((ihs k).1 hnone)
                  (outSpec_applyOut hcoh hkc hfresh0 hk)
            · rw [if_neg hk] at hsome
              exact (ihs k).2 orec hsome

theorem classify_fold_lengths {tm : Model} (hcoh : Coherent tm)
    (r : List (JVal × Obj)) :
    ∀ (b0 b : Buckets), distinctKeysB r = true → (∀ p ∈ r, FreshAt b0 p.1) →
      List.foldlM (fun b kv => classifyStep tm b kv) b0 r = .ok b →
      b.missing_model.length + b.equal_model.length + b.differing_model.length
        = b0.missing_model.length + b0.equal_model.length + b0.differing_model.length
          + r.length
      ∧ b.missing_model.length + b.equal_model.length
          + b.differing_this_is_newer_model.length
          + b.differing_other_is_newer_model.length
          + b.differing_both_same_age_model.length
        = b0.missing_model.length + b0.equal_model.length
          + b0.differing_this_is_newer_model.length
          + b0.differing_other_is_newer_model.length
          + b0.differing_both_same_age_model.length + r.length := by
  induction r with
  | nil =>
      intro b0 b _ _ hf
      rw [foldlM_except_nil] at hf
      cases hf
      exact ⟨rfl, rfl⟩
  | cons p r' ih =>
      intro b0 b hdist hfresh hf
      obtain ⟨op, orec0⟩ := p
      obtain ⟨hh, ht⟩ := distinct_head hdist
      rw [foldlM_except_cons] at hf
      cases hkc : keyClass tm op orec0 with
      | error e =>
          rw [show classifyStep tm b0 (op, orec0) = .error e from by
            rw [classifyStep, hkc]; rfl] at hf
          simp at hf
      | ok out =>
          rw [show classifyStep tm b0 (op, orec0) = .ok (applyOut b0 op out) from by
            rw [classifyStep, hkc]; rfl, except_bind_ok] at hf
          have hfresh0 : FreshAt b0 op := hfresh (op, orec0) (List.mem_cons_self _ _)
          have hfresh1 : ∀ q ∈ r', FreshAt (applyOut b0 op out) q.1 := by
            intro q hq
            exact freshAt_of_sameAt (sameAt_applyOut hcoh hkc (hh q hq))
              (hfresh q (List.mem_cons_of_mem _ hq))
          obtain ⟨s1, s2⟩ := ih (applyOut b0 op out) b ht hfresh1 hf
          obtain ⟨f1, f2, f3, f4, f5, f6⟩ := hfresh0
          have hinv := keyClass_inv hkc
          rw [List.length_cons]
          cases out with
          | missingK orec' =>
              simp only [applyOut] at s1 s2
              rw [length_dinsert_fresh orec' f1] at s1 s2
              exact ⟨by omega, by omega⟩
          | equalK orec' =>
              simp only [applyOut] at s1 s2
              rw [length_dinsert_fresh orec' f2] at s1 s2
              exact ⟨by omega, by omega⟩
          | otherNewerK orec' =>
              simp only [applyOut] at s1 s2
              rw [length_dinsert_fresh orec' f3] at s1
              rw [length_dinsert_fresh orec' f5] at s2
              exact ⟨by omega, by omega⟩
          | thisNewerK orec' tp trec =>
              simp only [applyOut] at s1 s2
              have htp : pyNorm tp = pyNorm op := kout_tp_norm hcoh hinv (Or.inl rfl)
              have hf4 : dget b0.differing_this_is_newer_model tp = none :=
                (dget_congr htp _).trans f4
              rw [length_dinsert_fresh orec' f3] at s1
              rw [length_dinsert_fresh trec hf4] at s2
              exact ⟨by omega, by omega⟩
          | sameAgeK orec' tp trec =>
              simp only [applyOut] at s1 s2
              have htp : pyNorm tp = pyNorm op := kout_tp_norm hcoh hinv (Or.inr rfl)
              have hf6 : dget b0.differing_both_same_age_model tp = none :=
                (dget_congr htp _).trans f6
              rw [length_dinsert_fresh orec' f3] at s1
              rw [length_dinsert_fresh trec hf6] at s2
              exact ⟨by omega, by omega⟩

theorem classify_fold_ok {tm : Model} (r : List (JVal × Obj)) :
    ∀ (b0 : Buckets), (∀ p ∈ r, ∃ out, keyClass tm p.1 p.2 = .ok out) →
      ∃ b, List.foldlM (fun b kv => classifyStep tm b kv) b0 r = .ok b := by
  induction r with
  | nil => intro b0 _; exact ⟨b0, rfl⟩
  | cons p r' ih =>
      intro b0 hkeys
      obtain ⟨out, hout⟩ := hkeys p (List.mem_cons_self _ _)
      obtain ⟨b, hb⟩ := ih (applyOut b0 p.1 out)
        (fun q hq => hkeys q (List.mem_cons_of_mem _ hq))
      refine ⟨b, ?_⟩
      rw [foldlM_except_cons, show classifyStep tm b0 p = .ok (applyOut b0 p.1 out) from
        by rw [classifyStep, hout]; rfl, except_bind_ok]
      exact hb

theorem freshAt_empty (k : JVal) : FreshAt emptyBuckets k :=
  ⟨rfl, rfl, rfl, rfl, rfl, rfl⟩

theorem dget_none_all_nil {d : Model} (h : ∀ k, dget d k = none) : d = [] := by
  cases d with
  | nil => rfl
  | cons p rest =>
      obtain ⟨k0, v0⟩ := p
      have := h k0
      rw [dget_cons, if_pos rfl] at this
      exact Option.noConfusion this

end FsScanner

namespace FsScanner

/-! Convenience instantiations and further helper lemmas. -/

theorem classifyAll_spec {tm om : Model} {b : Buckets}
    (hcoh : Coherent tm) (hdist : distinctKeysB om = true)
    (hc : classifyAll tm om = .ok b) (k : JVal) :
    (dget om k = none → sameAt b emptyBuckets k) ∧
    (∀ orec, dget om k = some orec →
      ∃ out, keyClass tm k orec = .ok out ∧ outSpec b k out) :=
  classify_fold_spec hcoh om emptyBuckets b hdist (fun p _ => freshAt_empty p.1) hc k

theorem classifyAll_lengths {tm om : Model} {b : Buckets}
    (hcoh : Coherent tm) (hdist : distinctKeysB om = true)
    (hc : classifyAll tm om = .ok b) :
    b.missing_model.length + b.equal_model.length + b.differing_model.length
      = om.length
    ∧ b.missing_model.length + b.equal_model.length
        + b.differing_this_is_newer_model.length
        + b.differing_other_is_newer_model.length
        + b.differing_both_same_age_model.length = om.length := by
  obtain ⟨s1, s2⟩ := classify_fold_lengths hcoh om emptyBuckets b hdist
    (fun p _ => freshAt_empty p.1) hc
  simp only [emptyBuckets, List.length_nil, Nat.zero_add] at s1 s2
  exact ⟨s1, s2⟩

theorem checkAsserts_inv {om : Model} {b b' : Buckets}
    (h : checkAsserts om b = .ok b') :
    b' = b
    ∧ b.missing_model.length + b.equal_model.length + b.differing_model.length
        = om.length
    ∧ b.missing_model.length + b.equal_model.length
        + b.differing_this_is_newer_model.length
        + b.differing_other_is_newer_model.length
        + b.differing_both_same_age_model.length = om.length := by
  unfold checkAsserts at h
  split at h
  · split at h
    · rename_i h1 h2
      cases h
      exact ⟨rfl, h1, h2⟩
    · exact Except.noConfusion h
  · exact Except.noConfusion h

theorem checkAsserts_ok {om : Model} {b : Buckets}
    (h1 : b.missing_model.length + b.equal_model.length + b.differing_model.length
        = om.length)
    (h2 : b.missing_model.length + b.equal_model.length
        + b.differing_this_is_newer_model.length
        + b.differing_other_is_newer_model.length
        + b.differing_both_same_age_model.length = om.length) :
    checkAsserts om b = .ok b := by
  unfold checkAsserts
  rw [if_pos h1, if_pos h2]

theorem sameAt_symm {a b : Buckets} {k : JVal} (h : sameAt a b k) : sameAt b a k := by
  obtain ⟨x1, x2, x3, x4, x5, x6⟩ := h
  exact ⟨x1.symm, x2.symm, x3.symm, x4.symm, x5.symm, x6.symm⟩

theorem sameAt_of_outSpec_pair {b b' : Buckets} {k : JVal} {out : KOut}
    (h : outSpec b k out) (h' : outSpec b' k out) : sameAt b b' k := by
  cases out <;>
    · obtain ⟨x1, x2, x3, x4, x5, x6⟩ := h
      obtain ⟨y1, y2, y3, y4, y5, y6⟩ := h'
      exact ⟨x1.trans y1.symm, x2.trans y2.symm, x3.trans y3.symm, x4.trans y4.symm,
        x5.trans y5.symm, x6.trans y6.symm⟩

/-! The claims. -/

/-- C1: for every pair of loaded manifests, once the classification loop over
other_model completes, |missing| + |equal| + |differing| = |other_model| and
|missing| + |equal| + |differing_this_is_newer| + |differing_other_is_newer| +
|differing_both_same_age| = |other_model|; consequently the two assertions of
fs_compare.py (lines 156-164) pass, and the assertion check fails loudly
(AssertionError) on any pair of sums for which either equation does not hold. -/
theorem c1_partition_sums (tl ol : List Line) (tm om : Model) (b : Buckets)
    (hlt : loadModel tl = .ok tm) (hlo : loadModel ol = .ok om)
    (hc : classifyAll tm om = .ok b) :
    (b.missing_model.length + b.equal_model.length + b.differing_model.length
      = om.length)
    ∧ (b.missing_model.length + b.equal_model.length
        + b.differing_this_is_newer_model.length
        + b.differing_other_is_newer_model.length
        + b.differing_both_same_age_model.length = om.length)
    ∧ checkAsserts om b = .ok b
    ∧ (∀ (om' : Model) (b' : Buckets),
        ¬ (b'.missing_model.length + b'.equal_model.length
            + b'.differing_model.length = om'.length
          ∧ b'.missing_model.length + b'.equal_model.length
            + b'.differing_this_is_newer_model.length
            + b'.differing_other_is_newer_model.length
            + b'.differing_both_same_age_model.length = om'.length) →
        checkAsserts om' b' = .error .assertionFailed) := by
  obtain ⟨s1, s2⟩ := classifyAll_lengths (load_coherent hlt) (load_distinct hlo) hc
  refine ⟨s1, s2, checkAsserts_ok s1 s2, ?_⟩
  intro om' b' hne
  unfold checkAsserts
  by_cases h1 : b'.missing_model.length + b'.equal_model.length
      + b'.differing_model.length = om'.length
  · rw [if_pos h1]
    by_cases h2 : b'.missing_model.length + b'.equal_model.length
        + b'.differing_this_is_newer_model.length
        + b'.differing_other_is_newer_model.length
        + b'.differing_both_same_age_model.length = om'.length
    · exact absurd ⟨h1, h2⟩ hne
    · rw [if_neg h2]
  · rw [if_neg h1]

/-- C1 witness: the invariants and the passing assertion, evaluated on the
concrete witness manifests. -/
theorem c1_partition_sums_witness :
    loadModel wTL = .ok wTM ∧ loadModel wOL = .ok wOM
    ∧ classifyAll wTM wOM = .ok wB
    ∧ (wB.missing_model.length + wB.equal_model.length + wB.differing_model.length
        = wOM.length)
    ∧ (wB.missing_model.length + wB.equal_model.length
        + wB.differing_this_is_newer_model.length
        + wB.differing_other_is_newer_model.length
        + wB.differing_both_same_age_model.length = wOM.length)
    ∧ checkAsserts wOM wB = .ok wB := by
  obtain ⟨s1, s2, s3, -⟩ := c1_partition_sums wTL wOL wTM wOM wB rfl rfl rfl
  exact ⟨rfl, rfl, rfl, s1, s2, s3⟩

/-- C2: no path occurs as a key in more than one of the five fine-grained
buckets produced by one classification run over loaded manifests. -/
theorem c2_bucket_disjointness (tl ol : List Line) (tm om : Model) (b : Buckets)
    (hlt : loadModel tl = .ok tm) (hlo : loadModel ol = .ok om)
    (hc : classifyAll tm om = .ok b) (k : JVal) :
    ([(dget b.missing_model k).isSome, (dget b.equal_model k).isSome,
      (dget b.differing_other_is_newer_model k).isSome,
      (dget b.differing_this_is_newer_model k).isSome,
      (dget b.differing_both_same_age_model k).isSome].count true) ≤ 1 := by
  have hspec := classifyAll_spec (load_coherent hlt) (load_distinct hlo) hc k
  cases ho : dget om k with
  | none =>
      obtain ⟨e1, e2, e3, e4, e5, e6⟩ := hspec.1 ho
      rw [e1, e2, e4, e5, e6]
      simp [emptyBuckets, dget]
  | some orec =>
      obtain ⟨out, hkc, hsp⟩ := hspec.2 orec ho
      cases out with
      | missingK orec' =>
          obtain ⟨o1, o2, o3, o4, o5, o6⟩ := hsp
          rw [o1, o2, o5, o4, o6]
          simp
      | equalK orec' =>
          obtain ⟨o1, o2, o3, o4, o5, o6⟩ := hsp
          rw [o1, o2, o5, o4, o6]
          simp
      | otherNewerK orec' =>
          obtain ⟨o1, o2, o3, o4, o5, o6⟩ := hsp
          rw [o1, o2, o5, o4, o6]
          simp
      | thisNewerK orec' tp trec =>
          obtain ⟨o1, o2, o3, o4, o5, o6⟩ := hsp
          rw [o1, o2, o5, o4, o6]
          simp
      | sameAgeK orec' tp trec =>
          obtain ⟨o1, o2, o3, o4, o5, o6⟩ := hsp
          rw [o1, o2, o5, o4, o6]
          simp

/-- C2 witness: disjointness, evaluated at path a of the witness run. -/
theorem c2_bucket_disjointness_witness :
    loadModel wTL = .ok wTM ∧ loadModel wOL = .ok wOM
    ∧ classifyAll wTM wOM = .ok wB
    ∧ ([(dget wB.missing_model (JVal.str "a")).isSome,
        (dget wB.equal_model (JVal.str "a")).isSome,
        (dget wB.differing_other_is_newer_model (JVal.str "a")).isSome,
        (dget wB.differing_this_is_newer_model (JVal.str "a")).isSome,
        (dget wB.differing_both_same_age_model (JVal.str "a")).isSome].count true) ≤ 1 :=
  ⟨rfl, rfl, rfl,
    c2_bucket_disjointness wTL wOL wTM wOM wB rfl rfl rfl (JVal.str "a")⟩

end FsScanner

namespace FsScanner

/-- C3: a path present in both loaded manifests with differing checksums is
refined by the strict last_modified comparison of lines 120-130 of
fs_compare.py: other strictly newer puts the other record into
differing_other_is_newer (keyed by the other path), this strictly newer puts
the this record into differing_this_is_newer (keyed by this_record's path,
the same path), and exactly equal timestamps always land in
differing_both_same_age, never in either newer bucket. -/
theorem c3_timestamp_refinement (tl ol : List Line) (tm om : Model) (b : Buckets)
    (k : JVal) (orec trec : Obj) (oc tc olm tlm : JVal)
    (hlt : loadModel tl = .ok tm) (hlo : loadModel ol = .ok om)
    (hc : classifyAll tm om = .ok b)
    (ho : dget om k = some orec) (ht : dget tm k = some trec)
    (hoc : Obj.get orec "checksum" = some oc)
    (htc : Obj.get trec "checksum" = some tc)
    (hne : ¬ pyNorm oc = pyNorm tc)
    (holm : Obj.get orec "last_modified" = some olm)
    (htlm : Obj.get trec "last_modified" = some tlm) :
    (pyLt tlm olm = some true →
      dget b.differing_model k = some orec
      ∧ dget b.differing_other_is_newer_model k = some orec
      ∧ dget b.differing_this_is_newer_model k = none
      ∧ dget b.differing_both_same_age_model k = none)
    ∧ (pyLt olm tlm = some true →
      dget b.differing_model k = some orec
      ∧ dget b.differing_this_is_newer_model k = some trec
      ∧ dget b.differing_other_is_newer_model k = none
      ∧ dget b.differing_both_same_age_model k = none)
    ∧ (olm = tlm →
      dget b.differing_model k = some orec
      ∧ dget b.differing_both_same_age_model k = some trec
      ∧ dget b.differing_other_is_newer_model k = none
      ∧ dget b.differing_this_is_newer_model k = none) := by
  obtain ⟨out, hkc, hsp⟩ :=
    (classifyAll_spec (load_coherent hlt) (load_distinct hlo) hc k).2 orec ho
  have hinv := keyClass_inv hkc
  refine ⟨?_, ?_, ?_⟩
  · intro hgt
    cases out with
    | missingK orec' =>
        obtain ⟨-, hmiss⟩ := hinv
        rw [ht] at hmiss
        exact Option.noConfusion hmiss
    | equalK orec' =>
        obtain ⟨-, trec', tp', oc', tc', htm', hp', hoc', htc', heq'⟩ := hinv
        cases Option.some.inj (htm'.symm.trans ht)
        cases Option.some.inj (hoc'.symm.trans hoc)
        cases Option.some.inj (htc'.symm.trans htc)
        exact absurd heq' hne
    | otherNewerK orec' =>
        obtain ⟨horec, -⟩ := hinv
        subst horec
        obtain ⟨o1, o2, o3, o4, o5, o6⟩ := hsp
        exact ⟨o3, o5, o4, o6⟩
    | thisNewerK orec' tp' trec' =>
        obtain ⟨-, htm', hp', oc', tc', olm', tlm', hoc', htc', hne', holm', htlm',
          hlt1, hlt2⟩ := hinv
        cases Option.some.inj (htm'.symm.trans ht)
        cases Option.some.inj (holm'.symm.trans holm)
        cases Option.some.inj (htlm'.symm.trans htlm)
        rw [hgt] at hlt1
        simp at hlt1
    | sameAgeK orec' tp' trec' =>
        obtain ⟨-, htm', hp', oc', tc', olm', tlm', hoc', htc', hne', holm', htlm',
          hlt1, hlt2⟩ := hinv
        cases Option.some.inj (htm'.symm.trans ht)
        cases Option.some.inj (holm'.symm.trans holm)
        cases Option.some.inj (htlm'.symm.trans htlm)
        rw [hgt] at hlt1
        simp at hlt1
  · intro hlt'
    cases out with
    | missingK orec' =>
        obtain ⟨-, hmiss⟩ := hinv
        rw [ht] at hmiss
        exact Option.noConfusion hmiss
    | equalK orec' =>
        obtain ⟨-, trec', tp', oc', tc', htm', hp', hoc', htc', heq'⟩ := hinv
        cases Option.some.inj (htm'.symm.trans ht)
        cases Option.some.inj (hoc'.symm.trans hoc)
        cases Option.some.inj (htc'.symm.trans htc)
        exact absurd heq' hne
    | otherNewerK orec' =>
        obtain ⟨-, trec', tp', oc', tc', olm', tlm', htm', hp', hoc', htc', hne',
          holm', htlm', hlt1⟩ := hinv
        cases Option.some.inj (htm'.symm.trans ht)
        cases Option.some.inj (holm'.symm.trans holm)
        cases Option.some.inj (htlm'.symm.trans htlm)
        rw [pyLt_asymm hlt'] at hlt1
        simp at hlt1
    | thisNewerK orec' tp' trec' =>
        obtain ⟨horec, htm', -⟩ := hinv
        subst horec
        cases Option.some.inj (htm'.symm.trans ht)
        obtain ⟨o1, o2, o3, o4, o5, o6⟩ := hsp
        exact ⟨o3, o4, o5, o6⟩
    | sameAgeK orec' tp' trec' =>
        obtain ⟨-, htm', hp', oc', tc', olm', tlm', hoc', htc', hne', holm', htlm',
          hlt1, hlt2⟩ := hinv
        cases Option.some.inj (htm'.symm.trans ht)
        cases Option.some.inj (holm'.symm.trans holm)
        cases Option.some.inj (htlm'.symm.trans htlm)
        rw [hlt'] at hlt2
        simp at hlt2
  · intro heqt
    cases out with
    | missingK orec' =>
        obtain ⟨-, hmiss⟩ := hinv
        rw [ht] at hmiss
        exact Option.noConfusion hmiss
    | equalK orec' =>
        obtain ⟨-, trec', tp', oc', tc', htm', hp', hoc', htc', heq'⟩ := hinv
        cases Option.some.inj (htm'.symm.trans ht)
        cases Option.some.inj (hoc'.symm.trans hoc)
        cases Option.some.inj (htc'.symm.trans htc)
        exact absurd heq' hne
    | otherNewerK orec' =>
        obtain ⟨-, trec', tp', oc', tc', olm', tlm', htm', hp', hoc', htc', hne',
          holm', htlm', hlt1⟩ := hinv
        cases Option.some.inj (htm'.symm.trans ht)
        cases Option.some.inj (holm'.symm.trans holm)
        cases Option.some.inj (htlm'.symm.trans htlm)
        rw [heqt] at hlt1
        exact absurd hlt1 (pyLt_self_ne_true tlm)
    | thisNewerK orec' tp' trec' =>
        obtain ⟨-, htm', hp', oc', tc', olm', tlm', hoc', htc', hne', holm', htlm',
          hlt1, hlt2⟩ := hinv
        cases Option.some.inj (htm'.symm.trans ht)
        cases Option.some.inj (holm'.symm.trans holm)
        cases Option.some.inj (htlm'.symm.trans htlm)
        rw [heqt] at hlt2
        exact absurd hlt2 (pyLt_self_ne_true tlm)
    | sameAgeK orec' tp' trec' =>
        obtain ⟨horec, htm', -⟩ := hinv
        subst horec
        cases Option.some.inj (htm'.symm.trans ht)
        obtain ⟨o1, o2, o3, o4, o5, o6⟩ := hsp
        exact ⟨o3, o6, o5, o4⟩

/-- C3 witness: the three refinements evaluated on the witness manifests at
paths a (equal timestamps), b (other newer) and c (this newer). -/
theorem c3_timestamp_refinement_witness :
    (dget wB.differing_model (JVal.str "a") = some wOrecA
      ∧ dget wB.differing_both_same_age_model (JVal.str "a") = some wTrecA
      ∧ dget wB.differing_other_is_newer_model (JVal.str "a") = none
      ∧ dget wB.differing_this_is_newer_model (JVal.str "a") = none)
    ∧ (dget wB.differing_model (JVal.str "b") = some wOrecB
      ∧ dget wB.differing_other_is_newer_model (JVal.str "b") = some wOrecB
      ∧ dget wB.differing_this_is_newer_model (JVal.str "b") = none
      ∧ dget wB.differing_both_same_age_model (JVal.str "b") = none)
    ∧ (dget wB.differing_model (JVal.str "c") = some wOrecC
      ∧ dget wB.differing_this_is_newer_model (JVal.str "c") = some wTrecC
      ∧ dget wB.differing_other_is_newer_model (JVal.str "c") = none
      ∧ dget wB.differing_both_same_age_model (JVal.str "c") = none) := by
  refine ⟨?_, ?_, ?_⟩
  · exact (c3_timestamp_refinement wTL wOL wTM wOM wB (JVal.str "a") wOrecA wTrecA
      (JVal.num 2) (JVal.num 1) (JVal.num 100) (JVal.num 100)
      rfl rfl rfl rfl rfl rfl rfl (by decide) rfl rfl).2.2 rfl
  · exact (c3_timestamp_refinement wTL wOL wTM wOM wB (JVal.str "b") wOrecB wTrecB
      (JVal.num 2) (JVal.num 1) (JVal.num 200) (JVal.num 100)
      rfl rfl rfl rfl rfl rfl rfl (by decide) rfl rfl).1 (by decide)
  · exact (c3_timestamp_refinement wTL wOL wTM wOM wB (JVal.str "c") wOrecC wTrecC
      (JVal.num 2) (JVal.num 1) (JVal.num 100) (JVal.num 200)
      rfl rfl rfl rfl rfl rfl rfl (by decide) rfl rfl).2.1 (by decide)

/-- C4: for a path present in both loaded manifests, checksum comparison is
plain value equality: Python-equal checksums (including null against null
under the none strategy) put the path into the equal bucket and into nothing
else — no hypothesis on the last_modified fields is needed, so the timestamps
are never consulted — and if every record on both sides carries a null
checksum then the differing bucket is empty. -/
theorem c4_fingerprint_equality (tl ol : List Line) (tm om : Model) (b : Buckets)
    (hlt : loadModel tl = .ok tm) (hlo : loadModel ol = .ok om)
    (hc : classifyAll tm om = .ok b) :
    (∀ (k : JVal) (orec trec : Obj) (oc tc : JVal),
      dget om k = some orec → dget tm k = some trec →
      Obj.get orec "checksum" = some oc → Obj.get trec "checksum" = some tc →
      pyNorm oc = pyNorm tc →
      dget b.equal_model k = some orec ∧ dget b.missing_model k = none
      ∧ dget b.differing_model k = none
      ∧ dget b.differing_other_is_newer_model k = none
      ∧ dget b.differing_this_is_newer_model k = none
      ∧ dget b.differing_both_same_age_model k = none)
    ∧ ((∀ p ∈ tm, Obj.get p.2 "checksum" = some JVal.null) →
       (∀ p ∈ om, Obj.get p.2 "checksum" = some JVal.null) →
       b.differing_model = []) := by
  have hspec := fun k =>
    classifyAll_spec (load_coherent hlt) (load_distinct hlo) hc k
  constructor
  · intro k orec trec oc tc ho ht hoc htc heq
    obtain ⟨out, hkc, hsp⟩ := (hspec k).2 orec ho
    have hinv := keyClass_inv hkc
    cases out with
    | missingK orec' =>
        obtain ⟨-, hmiss⟩ := hinv
        rw [ht] at hmiss
        exact Option.noConfusion hmiss
    | equalK orec' =>
        obtain ⟨horec, -⟩ := hinv
        subst horec
        obtain ⟨o1, o2, o3, o4, o5, o6⟩ := hsp
        exact ⟨o2, o1, o3, o5, o4, o6⟩
    | otherNewerK orec' =>
        obtain ⟨-, trec', tp', oc', tc', olm', tlm', htm', hp', hoc', htc', hne',
          -⟩ := hinv
        cases Option.some.inj (htm'.symm.trans ht)
        cases Option.some.inj (hoc'.symm.trans hoc)
        cases Option.some.inj (htc'.symm.trans htc)
        exact absurd heq hne'
    | thisNewerK orec' tp' trec' =>
        obtain ⟨-, htm', hp', oc', tc', olm', tlm', hoc', htc', hne', -⟩ := hinv
        cases Option.some.inj (htm'.symm.trans ht)
        cases Option.some.inj (hoc'.symm.trans hoc)
        cases Option.some.inj (htc'.symm.trans htc)
        exact absurd heq hne'
    | sameAgeK orec' tp' trec' =>
        obtain ⟨-, htm', hp', oc', tc', olm', tlm', hoc', htc', hne', -⟩ := hinv
        cases Option.some.inj (htm'.symm.trans ht)
        cases Option.some.inj (hoc'.symm.trans hoc)
        cases Option.some.inj (htc'.symm.trans htc)
        exact absurd heq hne'
  · intro hthis hother
    apply dget_none_all_nil
    intro k
    cases ho : dget om k with
    | none => exact ((hspec k).1 ho).2.2.1
    | some orec =>
        obtain ⟨out, hkc, hsp⟩ := (hspec k).2 orec ho
        have hinv := keyClass_inv hkc
        cases out with
        | missingK orec' => exact hsp.2.2.1
        | equalK orec' => exact hsp.2.2.1
        | otherNewerK orec' =>
            obtain ⟨-, trec', tp', oc', tc', olm', tlm', htm', hp', hoc', htc',
              hne', -⟩ := hinv
            obtain ⟨ko, hmo, -⟩ := dget_mem ho
            cases Option.some.inj (hoc'.symm.trans (hother (ko, orec) hmo))
            obtain ⟨kt, hmt, -⟩ := dget_mem htm'
            cases Option.some.inj (htc'.symm.trans (hthis (kt, trec') hmt))
            exact absurd rfl hne'
        | thisNewerK orec' tp' trec' =>
            obtain ⟨-, htm', hp', oc', tc', olm', tlm', hoc', htc', hne', -⟩ := hinv
            obtain ⟨ko, hmo, -⟩ := dget_mem ho
            cases Option.some.inj (hoc'.symm.trans (hother (ko, orec) hmo))
            obtain ⟨kt, hmt, -⟩ := dget_mem htm'
            cases Option.some.inj (htc'.symm.trans (hthis (kt, trec') hmt))
            exact absurd rfl hne'
        | sameAgeK orec' tp' trec' =>
            obtain ⟨-, htm', hp', oc', tc', olm', tlm', hoc', htc', hne', -⟩ := hinv
            obtain ⟨ko, hmo, -⟩ := dget_mem ho
            cases Option.some.inj (hoc'.symm.trans (hother (ko, orec) hmo))
            obtain ⟨kt, hmt, -⟩ := dget_mem htm'
            cases Option.some.inj (htc'.symm.trans (hthis (kt, trec') hmt))
            exact absurd rfl hne'

/-- C4 witness: equal checksums for path e (whose records carry no
last_modified field at all) land in the equal bucket only, and the
null-checksum run has an empty differing bucket. -/
theorem c4_fingerprint_equality_witness :
    (dget wB.equal_model (JVal.str "e") = some wOrecE
      ∧ dget wB.differing_model (JVal.str "e") = none)
    ∧ wNullB.differing_model = [] := by
  constructor
  · have h := (c4_fingerprint_equality wTL wOL wTM wOM wB rfl rfl rfl).1
      (JVal.str "e") wOrecE wTrecE (JVal.num 5) (JVal.num 5) rfl rfl rfl rfl rfl
    exact ⟨h.1, h.2.2.1⟩
  · exact (c4_fingerprint_equality wNullTL wNullOL wNullTM wNullOM wNullB
      rfl rfl rfl).2 (by decide) (by decide)

/-- C5: the classification covers exactly the domain of other_model: a path of
other_model absent from this_model lands in the missing bucket, keyed by the
other path and holding the other record and nothing else; a path not in
other_model (in particular one present only in this_model) is classified in no
bucket. -/
theorem c5_one_directional (tl ol : List Line) (tm om : Model) (b : Buckets)
    (hlt : loadModel tl = .ok tm) (hlo : loadModel ol = .ok om)
    (hc : classifyAll tm om = .ok b) :
    (∀ (k : JVal) (orec : Obj), dget om k = some orec → dget tm k = none →
      dget b.missing_model k = some orec ∧ dget b.equal_model k = none
      ∧ dget b.differing_model k = none
      ∧ dget b.differing_other_is_newer_model k = none
      ∧ dget b.differing_this_is_newer_model k = none
      ∧ dget b.differing_both_same_age_model k = none)
    ∧ (∀ k : JVal, dget om k = none →
      dget b.missing_model k = none ∧ dget b.equal_model k = none
      ∧ dget b.differing_model k = none
      ∧ dget b.differing_other_is_newer_model k = none
      ∧ dget b.differing_this_is_newer_model k = none
      ∧ dget b.differing_both_same_age_model k = none) := by
  have hspec := fun k =>
    classifyAll_spec (load_coherent hlt) (load_distinct hlo) hc k
  constructor
  · intro k orec ho ht
    obtain ⟨out, hkc, hsp⟩ := (hspec k).2 orec ho
    have hinv := keyClass_inv hkc
    cases out with
    | missingK orec' =>
        obtain ⟨horec, -⟩ := hinv
        subst horec
        obtain ⟨o1, o2, o3, o4, o5, o6⟩ := hsp
        exact ⟨o1, o2, o3, o5, o4, o6⟩
    | equalK orec' =>
        obtain ⟨-, trec', tp', oc', tc', htm', -⟩ := hinv
        rw [ht] at htm'
        exact Option.noConfusion htm'
    | otherNewerK orec' =>
        obtain ⟨-, trec', tp', oc', tc', olm', tlm', htm', -⟩ := hinv
        rw [ht] at htm'
        exact Option.noConfusion htm'
    | thisNewerK orec' tp' trec' =>
        obtain ⟨-, htm', -⟩ := hinv
        rw [ht] at htm'
        exact Option.noConfusion htm'
    | sameAgeK orec' tp' trec' =>
        obtain ⟨-, htm', -⟩ := hinv
        rw [ht] at htm'
        exact Option.noConfusion htm'
  · intro k ho
    obtain ⟨e1, e2, e3, e4, e5, e6⟩ := (hspec k).1 ho
    exact ⟨e1, e2, e3, e5, e4, e6⟩

/-- C5 witness: path d (only in other) is in missing and nothing else; path
zzz (in neither manifest) is in no bucket. -/
theorem c5_one_directional_witness :
    (dget wB.missing_model (JVal.str "d") = some wOrecD
      ∧ dget wB.equal_model (JVal.str "d") = none
      ∧ dget wB.differing_model (JVal.str "d") = none
      ∧ dget wB.differing_other_is_newer_model (JVal.str "d") = none
      ∧ dget wB.differing_this_is_newer_model (JVal.str "d") = none
      ∧ dget wB.differing_both_same_age_model (JVal.str "d") = none)
    ∧ (dget wB.missing_model (JVal.str "zzz") = none
      ∧ dget wB.equal_model (JVal.str "zzz") = none
      ∧ dget wB.differing_model (JVal.str "zzz") = none
      ∧ dget wB.differing_other_is_newer_model (JVal.str "zzz") = none
      ∧ dget wB.differing_this_is_newer_model (JVal.str "zzz") = none
      ∧ dget wB.differing_both_same_age_model (JVal.str "zzz") = none) := by
  constructor
  · exact (c5_one_directional wTL wOL wTM wOM wB rfl rfl rfl).1
      (JVal.str "d") wOrecD rfl rfl
  · exact (c5_one_directional wTL wOL wTM wOM wB rfl rfl rfl).2
      (JVal.str "zzz") rfl

/-- C10: in a loaded manifest every key maps to a record whose path field is
Python-equal to that key; hence the baseline record looked up during the diff
carries the iterated path, and the buckets keyed from this_record's path
(differing_this_is_newer, differing_both_same_age) only hold keys of
other_model. -/
theorem c10_key_path_coherence (tl ol : List Line) (tm om : Model) (b : Buckets)
    (hlt : loadModel tl = .ok tm) (hlo : loadModel ol = .ok om)
    (hc : classifyAll tm om = .ok b) :
    (∀ p ∈ tm, ∃ q, Obj.get p.2 "path" = some q ∧ pyNorm q = pyNorm p.1)
    ∧ (∀ (k : JVal) (trec : Obj), dget tm k = some trec →
        ∃ q, Obj.get trec "path" = some q ∧ pyNorm q = pyNorm k)
    ∧ (∀ k : JVal,
        (dget b.differing_this_is_newer_model k).isSome = true
          ∨ (dget b.differing_both_same_age_model k).isSome = true →
        (dget om k).isSome = true) := by
  refine ⟨load_coherent hlt, ?_, ?_⟩
  · intro k trec ht
    obtain ⟨k', hm, hk⟩ := dget_mem ht
    obtain ⟨q, hq, hq2⟩ := load_coherent hlt (k', trec) hm
    exact ⟨q, hq, hq2.trans hk⟩
  · intro k hk
    cases ho : dget om k with
    | some orec => rfl
    | none =>
        obtain ⟨-, -, -, e4, -, e6⟩ :=
          (classifyAll_spec (load_coherent hlt) (load_distinct hlo) hc k).1 ho
        rcases hk with h | h
        · rw [show dget b.differing_this_is_newer_model k = none from e4] at h
          exact Bool.noConfusion h
        · rw [show dget b.differing_both_same_age_model k = none from e6] at h
          exact Bool.noConfusion h

/-- C10 witness: coherence of the loaded this record for path a, and the
this-newer bucket key c is a key of the other model. -/
theorem c10_key_path_coherence_witness :
    (∃ q, Obj.get wTrecA "path" = some q ∧ pyNorm q = pyNorm (JVal.str "a"))
    ∧ (dget wOM (JVal.str "c")).isSome = true := by
  constructor
  · exact (c10_key_path_coherence wTL wOL wTM wOM wB rfl rfl rfl).2.1
      (JVal.str "a") wTrecA rfl
  · exact (c10_key_path_coherence wTL wOL wTM wOM wB rfl rfl rfl).2.2
      (JVal.str "c") (Or.inl rfl)

end FsScanner

namespace FsScanner

theorem compare_inv {tl ol : List Line} {b : Buckets}
    (h : compare tl ol = .ok b) :
    ∃ tm om, loadModel tl = .ok tm ∧ loadModel ol = .ok om
      ∧ classifyAll tm om = .ok b ∧ checkAsserts om b = .ok b := by
  unfold compare at h
  split at h
  · exact Except.noConfusion h
  · rename_i tm hltm
    split at h
    · exact Except.noConfusion h
    · rename_i om hlom
      split at h
      · exact Except.noConfusion h
      · rename_i b2 hcls
        split at h
        · exact Except.noConfusion h
        · rename_i b3 hchk
          cases h
          obtain ⟨hb, -, -⟩ := checkAsserts_inv hchk
          subst hb
          exact ⟨tm, om, hltm, hlom, hcls, hchk⟩

theorem compare_eq_ok {tl ol : List Line} {tm om : Model} {b : Buckets}
    (hltm : loadModel tl = .ok tm) (hlom : loadModel ol = .ok om)
    (hcls : classifyAll tm om = .ok b) (hchk : checkAsserts om b = .ok b) :
    compare tl ol = .ok b := by
  simp only [compare, hltm, hlom, hcls, hchk]

/-- C6 (amended): running the diff twice on identical inputs yields identical
results (the run is a pure function of the input lines), and on manifests
whose lines carry pairwise distinct paths the bucket contents are independent
of the line order of either manifest file; the distinct-path proviso is forced
by the loader's silent last-wins handling of duplicate paths (see the
counterexample). -/
theorem c6_order_independence (tl ol tl' ol' : List Line) (b : Buckets)
    (h1 : compare tl ol = .ok b)
    (hp1 : tl'.Perm tl) (hp2 : ol'.Perm ol)
    (hd1 : distinctKeysB (entries tl) = true)
    (hd2 : distinctKeysB (entries ol) = true) :
    compare tl ol = compare tl ol
    ∧ ∃ b', compare tl' ol' = .ok b' ∧ ∀ k, sameAt b b' k := by
  refine ⟨rfl, ?_⟩
  obtain ⟨tm, om, hltm, hlom, hcls, hchk⟩ := compare_inv h1
  have hgood1 : ∀ l ∈ tl', goodLine l = true :=
    fun l hl => load_aux_good tl [] tm hltm l (hp1.subset hl)
  have hgood2 : ∀ l ∈ ol', goodLine l = true :=
    fun l hl => load_aux_good ol [] om hlom l (hp2.subset hl)
  obtain ⟨tm', hltm'⟩ := load_aux_ok_of_good tl' [] hgood1
  obtain ⟨om', hlom'⟩ := load_aux_ok_of_good ol' [] hgood2
  have hperm1 : (entries tl').Perm (entries tl) := List.Perm.filterMap _ hp1
  have hperm2 : (entries ol').Perm (entries ol) := List.Perm.filterMap _ hp2
  have hd1' : distinctKeysB (entries tl') = true := distinct_perm hperm1.symm hd1
  have hd2' : distinctKeysB (entries ol') = true := distinct_perm hperm2.symm hd2
  have hdt : ∀ k, dget tm' k = dget tm k := by
    intro k
    rw [dget_loadModel hltm' hd1' k, dget_perm hperm1 hd1' k,
      ← dget_loadModel hltm hd1 k]
  have hdo : ∀ k, dget om' k = dget om k := by
    intro k
    rw [dget_loadModel hlom' hd2' k, dget_perm hperm2 hd2' k,
      ← dget_loadModel hlom hd2 k]
  have hspec1 := fun k =>
    classifyAll_spec (load_coherent hltm) (load_distinct hlom) hcls k
  have hkeys : ∀ p ∈ om', ∃ out, keyClass tm' p.1 p.2 = .ok out := by
    intro p hpm
    have hpo : dget om' p.1 = some p.2 :=
      dget_of_mem_distinct om' (load_distinct hlom') hpm rfl
    have hpo2 : dget om p.1 = some p.2 := (hdo p.1).symm.trans hpo
    obtain ⟨out, hkc, -⟩ := (hspec1 p.1).2 p.2 hpo2
    refine ⟨out, ?_⟩
    rw [← keyClass_dget_congr p.2 (hdt p.1).symm]
    exact hkc
  obtain ⟨b', hcls'⟩ := classify_fold_ok om' emptyBuckets hkeys
  have hspec2 := fun k =>
    classifyAll_spec (load_coherent hltm') (load_distinct hlom') hcls' k
  have hsame : ∀ k, sameAt b b' k := by
    intro k
    cases ho : dget om k with
    | none =>
        have ho' : dget om' k = none := (hdo k).trans ho
        exact sameAt_trans ((hspec1 k).1 ho) (sameAt_symm ((hspec2 k).1 ho'))
    | some orec =>
        have ho' : dget om' k = some orec := (hdo k).trans ho
        obtain ⟨out1, hkc1, hsp1⟩ := (hspec1 k).2 orec ho
        obtain ⟨out2, hkc2, hsp2⟩ := (hspec2 k).2 orec ho'
        rw [← keyClass_dget_congr orec (hdt k).symm, hkc1] at hkc2
        cases hkc2
        exact sameAt_of_outSpec_pair hsp1 hsp2
  obtain ⟨s1', s2'⟩ :=
    classifyAll_lengths (load_coherent hltm') (load_distinct hlom') hcls'
  exact ⟨b', compare_eq_ok hltm' hlom' hcls' (checkAsserts_ok s1' s2'), hsame⟩

/-- C6 counterexample: with a duplicate path in the this manifest, swapping the
two duplicate lines changes the bucket contents of the run (the loader keeps
the last record for a path), refuting line-order independence as stated: with
lines in the order checksum 1 then checksum 2 the path is classified differing,
in the swapped order it is classified equal. -/
theorem c6_order_dependence_counterexample :
    List.Perm [c6L2, c6L1] [c6L1, c6L2]
    ∧ compare [c6L1, c6L2] [c6L1] = .ok c6B1
    ∧ compare [c6L2, c6L1] [c6L1] = .ok c6B2
    ∧ dget c6B1.equal_model (JVal.str "a") = none
    ∧ dget c6B2.equal_model (JVal.str "a")
        = some [("path", JVal.str "a"), ("checksum", JVal.num 1),
                ("last_modified", JVal.num 0)]
    ∧ c6B1.equal_model ≠ c6B2.equal_model := by
  exact ⟨List.Perm.swap c6L1 c6L2 [], rfl, rfl, rfl, rfl, by decide⟩

/-- C6 witness: order independence applied to the witness manifests and their
swapped versions. -/
theorem c6_order_independence_witness :
    compare wTL wOL = .ok wCB
    ∧ List.Perm wTLswap wTL ∧ List.Perm wOLswap wOL
    ∧ distinctKeysB (entries wTL) = true ∧ distinctKeysB (entries wOL) = true
    ∧ (compare wTL wOL = compare wTL wOL
       ∧ ∃ b', compare wTLswap wOLswap = .ok b' ∧ ∀ k, sameAt wCB b' k) := by
  refine ⟨rfl, by decide, by decide, by decide, by decide, ?_⟩
  exact c6_order_independence wTL wOL wTLswap wOLswap wCB rfl
    (by decide) (by decide) (by decide) (by decide)

/-- C7 (amended): manifest loading skips blank lines anywhere in the stream;
a line that fails to parse as JSON, parses to a non-object, or parses to an
object without a path field aborts the whole load (no per-line recovery);
the checksum field is not validated at load time (see the counterexample). -/
theorem c7_loader_contract :
    (∀ pre post : List Line,
      loadModel (pre ++ Line.blank :: post) = loadModel (pre ++ post))
    ∧ (∀ ls : List Line, Line.badJson ∈ ls → ∃ e, loadModel ls = .error e)
    ∧ (∀ (ls : List Line) (v : JVal), Line.nonObj v ∈ ls →
        ∃ e, loadModel ls = .error e)
    ∧ (∀ (ls : List Line) (o : Obj), Line.obj o ∈ ls → Obj.get o "path" = none →
        ∃ e, loadModel ls = .error e) := by
  refine ⟨?_, ?_, ?_, ?_⟩
  · intro pre post
    exact load_aux_blank post pre []
  · intro ls hmem
    exact load_aux_bad ls [] _ hmem rfl
  · intro ls v hmem
    exact load_aux_bad ls [] _ hmem rfl
  · intro ls o hmem hpath
    refine load_aux_bad ls [] _ hmem ?_
    rw [goodLine, hpath]
    rfl

/-- C7 witness: a skipped blank line, and the three fatal malformed-line
shapes, on concrete inputs. -/
theorem c7_loader_contract_witness :
    loadModel [Line.blank, Line.obj wTrecA] = loadModel [Line.obj wTrecA]
    ∧ (Line.badJson ∈ ([Line.obj wTrecA, Line.badJson] : List Line)
        ∧ ∃ e, loadModel [Line.obj wTrecA, Line.badJson] = .error e)
    ∧ (Line.nonObj (JVal.num 3) ∈ ([Line.nonObj (JVal.num 3)] : List Line)
        ∧ ∃ e, loadModel [Line.nonObj (JVal.num 3)] = .error e)
    ∧ (Line.obj [("checksum", JVal.num 1)]
          ∈ ([Line.obj [("checksum", JVal.num 1)]] : List Line)
        ∧ Obj.get [("checksum", JVal.num 1)] "path" = none
        ∧ ∃ e, loadModel [Line.obj [("checksum", JVal.num 1)]] = .error e) := by
  refine ⟨?_, ⟨by decide, ?_⟩, ⟨by decide, ?_⟩, ⟨by decide, rfl, ?_⟩⟩
  · exact c7_loader_contract.1 [] [Line.obj wTrecA]
  · exact c7_loader_contract.2.1 _ (by decide)
  · exact c7_loader_contract.2.2.1 _ (JVal.num 3) (by decide)
  · exact c7_loader_contract.2.2.2 [Line.obj [("checksum", JVal.num 1)]]
      [("checksum", JVal.num 1)] (by decide) rfl

/-- C7 counterexample: a non-blank line parsing to an object with a path field
but no checksum field loads successfully, so the loader does not require the
fingerprint (checksum) field the claim says is mandatory. -/
theorem c7_checksum_not_required_counterexample :
    Obj.get [("path", JVal.str "a")] "checksum" = none
    ∧ loadModel [Line.obj [("path", JVal.str "a")]]
        = .ok [(JVal.str "a", [("path", JVal.str "a")])] :=
  ⟨rfl, rfl⟩

/-- C8: evaluation at the failing input: when the very first file visit of a
scan fails (stat raises OSError), the record construction of fs_scanner.py
(line 162) references the never-assigned loop variables file_size /
last_modified / file_checksum and the scan aborts with a NameError — no record
is emitted and the scan does not continue, contradicting the claim for the
first file.  The same failure on a later file is caught, counted, its error
text is recorded in check_state, a record is emitted (with stale size, mtime
and checksum values from the previous file) and the scan continues. -/
theorem c8_first_file_failure_crashes :
    scan [⟨"d/f1", .error "PermissionError 13", true, .ok JVal.null⟩]
      = .error .nameError
    ∧ scan [⟨"d/f1", .ok (10, 100), true, .ok JVal.null⟩,
            ⟨"d/f2", .error "PermissionError 13", true, .ok JVal.null⟩]
      = .ok ⟨2, 1, 10, some 10, some 100, some JVal.null,
          [[("path", JVal.str "d/f1"), ("size", JVal.num ((10 : Nat) : ℚ)),
            ("last_modified", JVal.num 100), ("checksum", JVal.null),
            ("check_state", JVal.str "OK")],
           [("path", JVal.str "d/f2"), ("size", JVal.num ((10 : Nat) : ℚ)),
            ("last_modified", JVal.num 100), ("checksum", JVal.null),
            ("check_state", JVal.str "PermissionError 13")]]⟩ :=
  ⟨rfl, rfl⟩

/-- C9: evaluation at the mismatch: the scanner CLI choice list (line 108 of
fs_scanner.py) contains "time" and not the documented "size", while
checksum_mapper (lines 77-82) maps "size" and has no entry for "time"; so
"size" is rejected by the CLI despite the option's own help text, and the
accepted "time" selects no fingerprint function (checksum_mapper["time"]
raises KeyError at scan time, line 156). -/
theorem c9_cli_choice_mismatch :
    ("size" ∉ scan_checksum_choices)
    ∧ ("time" ∈ scan_checksum_choices)
    ∧ mapperGet "time" = none
    ∧ mapperGet "size" = some .size_checksum
    ∧ mapperGet "none" = some .no_checksum
    ∧ mapperGet "simple" = some .simple_checksum
    ∧ mapperGet "strong" = some .strong_checksum
    ∧ scan_checksum_default = "none"
    ∧ checksum_mapper.map (fun p => p.1) = ["none", "size", "simple", "strong"] := by
  refine ⟨by decide, by decide, rfl, rfl, rfl, rfl, rfl, rfl, rfl⟩

end FsScanner
